import Mathlib

/-
Shallow embedding of the Faunus Monte-Carlo move framework (move.h) and
proofs about its Metropolis machinery, its accept/reject bookkeeping and
the individual moves referenced by the specification.

Modelling conventions, used throughout:

* All numeric data that the C++ code stores and branches on (positions,
  charges, displacement parameters, random draws) are modelled as exact
  rationals; the transcendental functions entering the Metropolis
  comparison (std::exp, std::log) are modelled by the exact real
  functions, so every comparison against them is a proposition over the
  reals.  Branching on such undecidable propositions is expressed by
  inductive step relations rather than by functions.
* External collaborators that are not part of the repository sources
  (the Hamiltonian, geometry primitives, the Space container, AtomData)
  are taken as explicit function parameters, exactly at the interface
  the move code calls them.
* The random number generator implementation (RandomTwister) is not part
  of the sources; its operations are modelled from the spec: `uniform`
  produces reals in the open interval from 0 to 1, `half` is uniform
  minus one half, iterator/element selection and ranged integers are
  modelled as a separate stream of naturals reduced modulo the range.
  Two generator instances exist: the global one (slump) and the
  move-internal one (Movebase::_slump), each with its own cursor.
-/

namespace Faunus

/-- Three dimensional point with exact rational coordinates. -/
structure Pt3 where
  x : ℚ
  y : ℚ
  z : ℚ
  deriving DecidableEq, Repr

instance : Add Pt3 := ⟨fun a b => ⟨a.x + b.x, a.y + b.y, a.z + b.z⟩⟩

/-- Particle record: position, charge, atom-type id and radius, as used by
the move framework (spec §3, Data model). -/
structure Particle where
  pos : Pt3
  charge : ℚ
  id : ℕ
  radius : ℚ
  deriving DecidableEq, Repr

/-- Default particle used to totalise out-of-range accesses. -/
def defaultParticle : Particle := ⟨⟨0, 0, 0⟩, 0, 0, 0⟩

/-- Particle at index `i` of a particle vector (total version of `p[i]`). -/
def pAt (v : List Particle) (i : ℕ) : Particle := v.getD i defaultParticle

/-- Group: contiguous inclusive range `front..back` of particle indices,
molecule-type id, molecular/atomic flag and the two mass centres. -/
structure GroupInfo where
  front : ℕ
  back : ℕ
  molId : ℕ
  molecular : Bool
  cm : Pt3
  cmTrial : Pt3
  deriving DecidableEq, Repr

/-- Number of particles in a group (`Group::size()`, inclusive range). -/
def GroupInfo.size (g : GroupInfo) : ℕ := g.back + 1 - g.front

/-- Change descriptor: map from group index to the moved particle indices
inside that group, plus the geometry-change flag and volume change. -/
structure Change where
  mvGroup : List (ℕ × List ℕ)
  geometryChange : Bool
  dV : ℝ

/-- The cleared change descriptor (`change.clear()`). -/
def Change.cleared : Change := ⟨[], false, 0⟩

/-- Look up the particle list registered for group `g` in a change
descriptor (empty when the group is not registered). -/
def Change.lookupGroup (c : Change) (g : ℕ) : List ℕ :=
  ((c.mvGroup.find? (fun e => e.1 = g)).map Prod.snd).getD []

/-- Register particle index `i` under group `g`
(`change.mvGroup[g].push_back(i)`). -/
def Change.push (c : Change) (g i : ℕ) : Change :=
  if c.mvGroup.any (fun e => e.1 = g) then
    { c with mvGroup := c.mvGroup.map (fun e => if e.1 = g then (e.1, e.2 ++ [i]) else e) }
  else
    { c with mvGroup := c.mvGroup ++ [(g, [i])] }

/-- Per-molecule move configuration (`Movebase::MolListData`): probability,
per-atom / per-molecule multipliers, computed repeat count, direction mask
and the two displacement parameters. -/
structure MolData where
  prob : ℚ
  perAtom : Bool
  perMol : Bool
  repeatCount : ℕ
  dir : Pt3
  dp1 : ℚ
  dp2 : ℚ
  deriving DecidableEq, Repr

/-- Modelled from the spec: the RandomTwister generator (random.h is not in
the sources).  Uniform draws are rationals in the open unit interval, and
element/range selection consumes a separate stream of naturals reduced
modulo the range.  `gUni`/`gSel` belong to the global instance `slump`,
`dUni`/`dSel` to the move-internal instance `Movebase::_slump`. -/
structure Rngs where
  gUni : ℕ → ℚ
  gSel : ℕ → ℕ
  dUni : ℕ → ℚ
  dSel : ℕ → ℕ

/-- Modelled from the spec: all uniform draws of a stream lie strictly
between 0 and 1 (spec §2: uniform produces numbers in the open unit
interval). -/
def UniRange (u : ℕ → ℚ) : Prop := ∀ n, 0 < u n ∧ u n < 1

/-- Energy value returned by `_energyChange()`: either a finite real number
of kT or the IEEE infinity `pc::infty` used for early rejection. -/
inductive EnergyR where
  | finite (x : ℝ) : EnergyR
  | infty : EnergyR

/-- The comparison `slump() > std::exp(-du)` at draw `u`.  For the infinite
energy the C++ double computation gives `std::exp(-inf) = 0`, so the
comparison degenerates to `u > 0`. -/
def MetExceeds (u : ℚ) : EnergyR → Prop
  | .finite x => (u : ℝ) > Real.exp (-x)
  | .infty => (u : ℝ) > 0

/-- One execution of `Movebase::metropolis` (move.h):

    if ( slump() > std::exp(-du) ) return false;
    return true;

It reads exactly one uniform draw from the global stream at cursor `k` and
advances the cursor to `k + 1`; the outcome is `true` for acceptance. -/
inductive MetStep (uni : ℕ → ℚ) : ℕ → EnergyR → Bool × ℕ → Prop
  | reject (k : ℕ) (du : EnergyR) (h : MetExceeds (uni k) du) :
      MetStep uni k du (false, k + 1)
  | accept (k : ℕ) (du : EnergyR) (h : ¬ MetExceeds (uni k) du) :
      MetStep uni k du (true, k + 1)

/-- C1.  For every trial the Metropolis test rejects exactly when the single
uniform draw exceeds `exp(-dU)`; the cursor advances by exactly one draw
whatever the sign of `dU`; and a trial with finite `dU ≤ 0` is always
accepted (the draw is below 1, while `exp(-dU) ≥ 1`). -/
theorem metropolis_single_draw (uni : ℕ → ℚ) (k : ℕ) (du : EnergyR)
    (b : Bool) (k' : ℕ) (hstep : MetStep uni k du (b, k')) :
    k' = k + 1 ∧ (b = false ↔ MetExceeds (uni k) du) ∧
      (∀ x : ℝ, du = .finite x → x ≤ 0 → uni k < 1 → b = true) := by
  cases hstep with
  | reject h =>
      refine ⟨rfl, by simp [h], ?_⟩
      intro x hx hx0 hu
      exfalso
      subst hx
      have h1 : (1 : ℝ) ≤ Real.exp (-x) := by
        have : (0 : ℝ) ≤ -x := by linarith
        simpa using Real.exp_le_exp.mpr this
      have h2 : ((uni k : ℝ)) < 1 := by exact_mod_cast hu
      exact absurd h (by simp [MetExceeds]; linarith)
  | accept h =>
      exact ⟨rfl, by simp [h], fun _ _ _ _ => rfl⟩

/-- Constant example stream used to instantiate hypothesis-bearing
theorems at concrete inputs (`mkRat` keeps the value kernel-reducible). -/
def halfStream : ℕ → ℚ := fun _ => mkRat 1 2

theorem halfStream_eval (n : ℕ) : halfStream n = 1 / 2 := by
  rw [halfStream, Rat.mkRat_eq_div]
  norm_num

/-- Witness for C1 at the concrete draw 1/2 and energy change 0. -/
theorem metropolis_single_draw_witness :
    (∃ out, MetStep halfStream 0 (.finite 0) out) ∧
      (1 = 0 + 1 ∧ (true = false ↔ MetExceeds (halfStream 0) (.finite 0)) ∧
        (∀ x : ℝ, (EnergyR.finite 0 = .finite x) → x ≤ 0 → halfStream 0 < 1 → true = true)) := by
  have hacc : ¬ MetExceeds (halfStream 0) (.finite 0) := by
    simp [MetExceeds, halfStream_eval]
    norm_num
  refine ⟨⟨(true, 1), MetStep.accept 0 _ hacc⟩, ?_⟩
  exact metropolis_single_draw halfStream 0 (.finite 0) true 1
    (MetStep.accept 0 _ hacc)

/-- Common mutable state shared by the driver and all moves: the committed
and trial particle vectors, the group list, the per-molecule move list, the
acceptance counters, the alternate return energy and the four RNG cursors
(`gU`/`gS` for the global instance, `dU`/`dS` for the move-internal one).
`inner` holds the move-specific members. -/
structure MState (σ : Type) where
  inner : σ
  p : List Particle
  trial : List Particle
  groups : List GroupInfo
  mollist : List (ℕ × MolData)
  currentMolId : ℕ
  runfraction : ℚ
  change : Change
  cnt : ℕ
  cntAccepted : ℕ
  dusum : ℝ
  useAlternative : Bool
  alternate : ℝ
  gU : ℕ
  gS : ℕ
  dU : ℕ
  dS : ℕ

instance : Inhabited MolData := ⟨⟨1, false, false, 1, ⟨1, 1, 1⟩, 0, 0⟩⟩

/-- Look up the `MolListData` stored under molecule id `molid`
(`mollist[molid]` on the `std::map`). -/
def lookupMol (l : List (ℕ × MolData)) (molid : ℕ) : MolData :=
  ((l.find? (fun e => e.1 = molid)).map Prod.snd).getD default

/-- The virtual operations a concrete move plugs into `Movebase::move`:
`runOk` models the extra checks of an overridden `run()` before the
run-fraction draw, `trialMove` models `_trialMove()`, `energy` models
`_energyChange()` (which may set the alternate return energy), and
`acceptMove` / `rejectMove` model `_acceptMove()` / `_rejectMove()`. -/
structure MoveOps (σ : Type) where
  runOk : MState σ → Bool
  trialMove : Rngs → MState σ → MState σ → Prop
  energy : Rngs → MState σ → EnergyR × MState σ → Prop
  acceptMove : MState σ → MState σ
  rejectMove : MState σ → MState σ

/-- The move-list phase of `Movebase::move` together with
`Movebase::randomMolId`: select a move-list entry with the move-internal
generator, write the repeat count `1 · (perMol ? numMolecules : 1) ·
(perAtom ? first group size : 1)` into the entry, adopt its molecule id
and its probability as the new run fraction, and hand back the repeat
count that overwrites `n`.  `numMolecules` and `frontSize` stand for the
Space queries `numMolecules(molid)` and
`findMolecules(molid).front()->size()`. -/
def selectPhase (R : Rngs) (numMolecules frontSize : ℕ → ℕ)
    (s : MState σ) (n : ℕ) : MState σ × ℕ :=
  if s.mollist.isEmpty then (s, n)
  else
    let k := R.dSel s.dS % s.mollist.length
    let e := s.mollist.getD k (0, default)
    let rep := 1 * (if e.2.perMol then numMolecules e.1 else 1)
      * (if e.2.perAtom then frontSize e.1 else 1)
    let mollist' := s.mollist.set k (e.1, { e.2 with repeatCount := rep })
    let s' := { s with
      mollist := mollist'
      currentMolId := e.1
      runfraction := (lookupMol mollist' e.1).prob
      dS := s.dS + 1 }
    (s', (lookupMol mollist' e.1).repeatCount)

/-- The run-fraction test `Movebase::run`: draw one uniform from the
move-internal generator and compare it with the run fraction. -/
def runTest (R : Rngs) (s : MState σ) : Bool × MState σ :=
  (decide (R.dUni s.dU < s.runfraction), { s with dU := s.dU + 1 })

/-- One iteration of the trial loop inside `Movebase::move`: perform the
trial move (the wrapper increments `cnt` first and requires an empty change
descriptor), compute the energy change, run the Metropolis test on one
global uniform draw, then either accept (incrementing `cntAccepted`, with
the energy booked being the alternate return energy when the move uses it)
or reject, add the Hamiltonian update term `pot->update(acceptance)` in
either branch, and clear the change descriptor.  The second component of
each pair is the running `utot`.  (An infinite energy can only be
rejected here: accepting it would require a draw at or below
`exp(-inf) = 0`, which the generator never produces.) -/
inductive TrialStep (ops : MoveOps σ) (R : Rngs) (potUpdate : Bool → ℝ) :
    MState σ × ℝ → MState σ × ℝ → Prop
  | accept (s : MState σ) (utot : ℝ) (s1 : MState σ) (x : ℝ) (s2 : MState σ)
      (hclear : s.change = Change.cleared)
      (htrial : ops.trialMove R { s with cnt := s.cnt + 1 } s1)
      (henergy : ops.energy R s1 (.finite x, s2))
      (hmet : MetStep R.gUni s2.gU (.finite x) (true, s2.gU + 1)) :
      TrialStep ops R potUpdate (s, utot)
        (let du := if s2.useAlternative then s2.alternate else x
         let s3 := ops.acceptMove { s2 with gU := s2.gU + 1 }
         ({ s3 with
            cntAccepted := s3.cntAccepted + 1
            dusum := s3.dusum + du
            change := Change.cleared },
          utot + du + potUpdate true))
  | reject (s : MState σ) (utot : ℝ) (s1 : MState σ) (e : EnergyR) (s2 : MState σ)
      (hclear : s.change = Change.cleared)
      (htrial : ops.trialMove R { s with cnt := s.cnt + 1 } s1)
      (henergy : ops.energy R s1 (e, s2))
      (hmet : MetStep R.gUni s2.gU e (false, s2.gU + 1)) :
      TrialStep ops R potUpdate (s, utot)
        (let s3 := ops.rejectMove { s2 with gU := s2.gU + 1 }
         ({ s3 with change := Change.cleared }, utot + potUpdate false))

/-- The `while ( n-- > 0 )` loop of `Movebase::move`. -/
inductive LoopRel (ops : MoveOps σ) (R : Rngs) (potUpdate : Bool → ℝ) :
    ℕ → MState σ × ℝ → MState σ × ℝ → Prop
  | zero (su : MState σ × ℝ) : LoopRel ops R potUpdate 0 su su
  | succ (n : ℕ) (su su1 su2 : MState σ × ℝ)
      (hstep : TrialStep ops R potUpdate su su1)
      (hrest : LoopRel ops R potUpdate n su1 su2) :
      LoopRel ops R potUpdate (n + 1) su su2

/-- The whole of `Movebase::move(n)`: the move-list phase, the run test
(the overridden pre-checks first, without consuming a draw; then the
run-fraction draw from the move-internal generator), and the trial loop.
The returned real is `utot`. -/
inductive MoveRel (ops : MoveOps σ) (R : Rngs) (potUpdate : Bool → ℝ)
    (numMolecules frontSize : ℕ → ℕ) : ℕ → MState σ → MState σ × ℝ → Prop
  | skipRun (n : ℕ) (s : MState σ)
      (hok : ops.runOk (selectPhase R numMolecules frontSize s n).1 = false) :
      MoveRel ops R potUpdate numMolecules frontSize n s
        ((selectPhase R numMolecules frontSize s n).1, 0)
  | failRun (n : ℕ) (s : MState σ)
      (hok : ops.runOk (selectPhase R numMolecules frontSize s n).1 = true)
      (hrun : (runTest R (selectPhase R numMolecules frontSize s n).1).1 = false) :
      MoveRel ops R potUpdate numMolecules frontSize n s
        ((runTest R (selectPhase R numMolecules frontSize s n).1).2, 0)
  | run (n : ℕ) (s : MState σ) (out : MState σ × ℝ)
      (hok : ops.runOk (selectPhase R numMolecules frontSize s n).1 = true)
      (hrun : (runTest R (selectPhase R numMolecules frontSize s n).1).1 = true)
      (hloop : LoopRel ops R potUpdate (selectPhase R numMolecules frontSize s n).2
        ((runTest R (selectPhase R numMolecules frontSize s n).1).2, 0) out) :
      MoveRel ops R potUpdate numMolecules frontSize n s out

instance : Inhabited GroupInfo := ⟨⟨0, 0, 0, false, ⟨0, 0, 0⟩, ⟨0, 0, 0⟩⟩⟩

/-- Indices of the groups matching a molecule id
(`Space::findMolecules(molid)`, modelled on the group list; the Space
container itself is not in the sources). -/
def findMoleculesIdx (groups : List GroupInfo) (molid : ℕ) : List ℕ :=
  (List.range groups.length).filter
    (fun i => (groups.getD i default).molId = molid)

/-- Index of the group containing particle index `i`
(`Space::findGroup(iparticle)`). -/
def findGroupOf (groups : List GroupInfo) (i : ℕ) : Option ℕ :=
  (List.range groups.length).find?
    (fun gi => (groups.getD gi default).front ≤ i ∧ i ≤ (groups.getD gi default).back)

/-- Move-specific members of `AtomicTranslation`: the chosen particle, the
chosen group (the null pointer test on `igroup` is modelled as an index
validity test), the direction mask and the generic displacement. -/
structure AtomicState where
  iparticle : ℕ
  igroup : ℕ
  dir : Pt3
  genericdp : ℚ
  deriving DecidableEq, Repr

/-- The checks of `AtomicTranslation::run` that precede the base-class
run-fraction draw: with a molecule list the selected molecule must have at
least one group; otherwise the preset group must be valid. -/
def atomicRunOk (s : MState AtomicState) : Bool :=
  if s.mollist.isEmpty then s.inner.igroup < s.groups.length
  else ¬ (findMoleculesIdx s.groups s.currentMolId).isEmpty

/-- `AtomicTranslation::_trialMove`: pick a group of the current molecule
id with the global generator (or use the preset group when no molecule
list is configured), pick one particle uniformly inside it, build the
displacement `dir · dp · (uniform - 1/2)` componentwise (with the generic
displacement replacing a per-type displacement below 1e-6), translate the
trial particle through the geometry boundary, recompute the trial mass
centre of a molecular group, and register the particle index under the
group in the change descriptor.  `atomDp` stands for the AtomData lookup
`atom[id].dp`, `massCenter` for `Geometry::massCenter` and `boundary` for
the geometry boundary application in `Point::translate`. -/
def atomicTrialMove (atomDp : ℕ → ℚ)
    (massCenter : List Particle → GroupInfo → Pt3) (boundary : Pt3 → Pt3)
    (R : Rngs) (s : MState AtomicState) : MState AtomicState :=
  let gIdx := if s.mollist.isEmpty then s.inner.igroup
    else
      let cands := findMoleculesIdx s.groups s.currentMolId
      cands.getD (R.gSel s.gS % cands.length) 0
  let gS1 := if s.mollist.isEmpty then s.gS else s.gS + 1
  let dir := if s.mollist.isEmpty then s.inner.dir
    else (lookupMol s.mollist s.currentMolId).dir
  let g := s.groups.getD gIdx default
  let ip := g.front + R.gSel gS1 % g.size
  let dp0 := atomDp (pAt s.p ip).id
  let dp := if dp0 < mkRat 1 1000000 then s.inner.genericdp else dp0
  let t : Pt3 := ⟨dir.x * dp * (R.gUni s.gU - 1 / 2),
    dir.y * dp * (R.gUni (s.gU + 1) - 1 / 2),
    dir.z * dp * (R.gUni (s.gU + 2) - 1 / 2)⟩
  let old := pAt s.trial ip
  let trial' := s.trial.set ip { old with pos := boundary (old.pos + t) }
  let groups' := if g.molecular
    then s.groups.set gIdx { g with cmTrial := massCenter trial' g }
    else s.groups
  { s with
    inner := { s.inner with iparticle := ip, igroup := gIdx, dir := dir }
    trial := trial'
    groups := groups'
    change := s.change.push gIdx ip
    gS := gS1 + 1
    gU := s.gU + 3 }

/-- `AtomicTranslation::_acceptMove`: copy the trial particle into the
committed vector and adopt the trial mass centre of its molecular group
(the acceptance statistics do not influence the sampled state and are
omitted). -/
def atomicAccept (s : MState AtomicState) : MState AtomicState :=
  let i := s.inner.iparticle
  let p' := s.p.set i (pAt s.trial i)
  let groups' := match findGroupOf s.groups i with
    | some gi =>
        let g := s.groups.getD gi default
        if g.molecular then s.groups.set gi { g with cm := g.cmTrial } else s.groups
    | none => s.groups
  { s with p := p', groups := groups' }

/-- `AtomicTranslation::_rejectMove`: restore the trial particle from the
committed vector and the trial mass centre from the committed one. -/
def atomicReject (s : MState AtomicState) : MState AtomicState :=
  let i := s.inner.iparticle
  let trial' := s.trial.set i (pAt s.p i)
  let groups' := match findGroupOf s.groups i with
    | some gi =>
        let g := s.groups.getD gi default
        if g.molecular then s.groups.set gi { g with cmTrial := g.cm } else s.groups
    | none => s.groups
  { s with trial := trial', groups := groups' }

/-- The `AtomicTranslation` move plugged into the driver.  The incremental
Hamiltonian evaluation `Energy::energyChange` is external and enters as
the parameter `E`. -/
def atomicOps (atomDp : ℕ → ℚ)
    (massCenter : List Particle → GroupInfo → Pt3) (boundary : Pt3 → Pt3)
    (E : MState AtomicState → ℝ) : MoveOps AtomicState where
  runOk := atomicRunOk
  trialMove := fun R s s' => s' = atomicTrialMove atomDp massCenter boundary R s
  energy := fun _ s out => out = (.finite (E s), s)
  acceptMove := atomicAccept
  rejectMove := atomicReject

theorem list_set_getD_self {α : Type} :
    ∀ (l : List α) (i : ℕ) (d : α), i < l.length → l.set i (l.getD i d) = l
  | [], i, d, h => by simp at h
  | a :: t, 0, d, _ => by simp [List.getD_cons_zero]
  | a :: t, i + 1, d, h => by
      simp only [List.getD_cons_succ, List.set_cons_succ]
      rw [list_set_getD_self t i d (by simpa using h)]

theorem list_getD_set_self {α : Type} :
    ∀ (l : List α) (i : ℕ) (a d : α), i < l.length → (l.set i a).getD i d = a
  | [], i, a, d, h => by simp at h
  | b :: t, 0, a, d, _ => by simp [List.getD_cons_zero]
  | b :: t, i + 1, a, d, h => by
      simp only [List.getD_cons_succ, List.set_cons_succ]
      exact list_getD_set_self t i a d (by simpa using h)

/-- States in sync, in the sense of the claim: the committed and the trial
particle vectors agree elementwise (positions, charges and identities
alike, since `Particle` equality is componentwise) and the change
descriptor is empty. -/
def Synced (s : MState σ) : Prop :=
  s.p = s.trial ∧ s.change = Change.cleared

/-- The shape of an atomic-translation trial move: the committed vector is
untouched, the trial vector is overwritten at the chosen particle index,
and that index is recorded in `iparticle`. -/
theorem atomicTrialMove_shape (atomDp : ℕ → ℚ)
    (massCenter : List Particle → GroupInfo → Pt3) (boundary : Pt3 → Pt3)
    (R : Rngs) (s : MState AtomicState) :
    ∃ ip v, (atomicTrialMove atomDp massCenter boundary R s).trial = s.trial.set ip v ∧
      (atomicTrialMove atomDp massCenter boundary R s).inner.iparticle = ip ∧
      (atomicTrialMove atomDp massCenter boundary R s).p = s.p :=
  ⟨_, _, rfl, rfl, rfl⟩

theorem sync_after_accept (p trial : List Particle) (ip : ℕ) (v : Particle)
    (h : p = trial) :
    p.set ip (pAt (trial.set ip v) ip) = trial.set ip v := by
  by_cases hlt : ip < trial.length
  · rw [pAt, list_getD_set_self _ _ _ _ hlt, h]
  · have hle : trial.length ≤ ip := le_of_not_lt hlt
    rw [List.set_eq_of_length_le hle, List.set_eq_of_length_le (h ▸ hle), h]

theorem sync_after_reject (p trial : List Particle) (ip : ℕ) (v : Particle)
    (h : p = trial) :
    (trial.set ip v).set ip (pAt p ip) = trial := by
  rw [List.set_set, h]
  by_cases hlt : ip < trial.length
  · exact list_set_getD_self _ _ _ (h ▸ hlt)
  · exact List.set_eq_of_length_le (le_of_not_lt hlt)

/-- One accepted or rejected atomic-translation trial re-establishes the
sync invariant. -/
theorem atomic_trialstep_synced (atomDp : ℕ → ℚ)
    (massCenter : List Particle → GroupInfo → Pt3) (boundary : Pt3 → Pt3)
    (E : MState AtomicState → ℝ) (R : Rngs) (potUpdate : Bool → ℝ)
    (su su' : MState AtomicState × ℝ)
    (h : TrialStep (atomicOps atomDp massCenter boundary E) R potUpdate su su')
    (hs : Synced su.1) : Synced su'.1 := by
  obtain ⟨hsync, -⟩ := hs
  cases h with
  | accept s utot s1 x s2 hclear htrial henergy hmet =>
      have hpair : (EnergyR.finite x, s2) = (EnergyR.finite (E s1), s1) := henergy
      have hs2 : s2 = s1 := (Prod.ext_iff.mp hpair).2
      have hs1 : s1 = atomicTrialMove atomDp massCenter boundary R
        { s with cnt := s.cnt + 1 } := htrial
      subst hs2 hs1
      obtain ⟨ip, v, htr, hip, hp⟩ := atomicTrialMove_shape atomDp massCenter boundary R
        { s with cnt := s.cnt + 1 }
      refine ⟨?_, rfl⟩
      show (atomicAccept _).p = (atomicAccept _).trial
      simp only [atomicAccept, hip, htr, hp]
      exact sync_after_accept s.p s.trial ip v hsync
  | reject s utot s1 e s2 hclear htrial henergy hmet =>
      have hpair : (e, s2) = (EnergyR.finite (E s1), s1) := henergy
      have hs2 : s2 = s1 := (Prod.ext_iff.mp hpair).2
      have hs1 : s1 = atomicTrialMove atomDp massCenter boundary R
        { s with cnt := s.cnt + 1 } := htrial
      subst hs2 hs1
      obtain ⟨ip, v, htr, hip, hp⟩ := atomicTrialMove_shape atomDp massCenter boundary R
        { s with cnt := s.cnt + 1 }
      refine ⟨?_, rfl⟩
      show (atomicReject _).p = (atomicReject _).trial
      simp only [atomicReject, hip, htr, hp]
      exact (sync_after_reject s.p s.trial ip v hsync).symm ▸ hsync.symm ▸ rfl

theorem selectPhase_synced (R : Rngs) (numMolecules frontSize : ℕ → ℕ)
    (s : MState σ) (n : ℕ) (hs : Synced s) :
    Synced (selectPhase R numMolecules frontSize s n).1 := by
  unfold selectPhase
  split
  · exact hs
  · exact hs

theorem runTest_synced (R : Rngs) (s : MState σ) (hs : Synced s) :
    Synced (runTest R s).2 := hs

theorem atomic_loop_synced (atomDp : ℕ → ℚ)
    (massCenter : List Particle → GroupInfo → Pt3) (boundary : Pt3 → Pt3)
    (E : MState AtomicState → ℝ) (R : Rngs) (potUpdate : Bool → ℝ)
    (n : ℕ) (su su' : MState AtomicState × ℝ)
    (h : LoopRel (atomicOps atomDp massCenter boundary E) R potUpdate n su su')
    (hs : Synced su.1) : Synced su'.1 := by
  induction h with
  | zero => exact hs
  | succ n su su1 su2 hstep hrest ih =>
      exact ih (atomic_trialstep_synced atomDp massCenter boundary E R potUpdate
        su su1 hstep hs)

/-- C2.  After every trial driven by `Movebase::move(n)` on the atomic
translation move, whether accepted or rejected, the committed and trial
particle vectors are equal (elementwise, hence including charge and
identity) and the change descriptor is empty. -/
theorem atomic_move_synced (atomDp : ℕ → ℚ)
    (massCenter : List Particle → GroupInfo → Pt3) (boundary : Pt3 → Pt3)
    (E : MState AtomicState → ℝ) (R : Rngs) (potUpdate : Bool → ℝ)
    (numMolecules frontSize : ℕ → ℕ) (n : ℕ)
    (s : MState AtomicState) (out : MState AtomicState × ℝ)
    (h : MoveRel (atomicOps atomDp massCenter boundary E) R potUpdate
      numMolecules frontSize n s out)
    (hp : s.p = s.trial) (hc : s.change = Change.cleared) :
    out.1.p = out.1.trial ∧ out.1.change = Change.cleared := by
  have hs : Synced s := ⟨hp, hc⟩
  cases h with
  | skipRun hok =>
      exact selectPhase_synced R numMolecules frontSize s n hs
  | failRun hok hrun =>
      exact runTest_synced R _ (selectPhase_synced R numMolecules frontSize s n hs)
  | run out hok hrun hloop =>
      exact atomic_loop_synced atomDp massCenter boundary E R potUpdate _ _ _ hloop
        (runTest_synced R _ (selectPhase_synced R numMolecules frontSize s n hs))

/-- Concrete streams: uniform draws constantly 1/2, selections constantly
index 0. -/
def constRngs : Rngs := ⟨halfStream, fun _ => 0, halfStream, fun _ => 0⟩

/-- Concrete one-particle, one-group starting state for witnesses. -/
def atomicDemoState : MState AtomicState where
  inner := ⟨0, 0, ⟨1, 1, 1⟩, 0⟩
  p := [defaultParticle]
  trial := [defaultParticle]
  groups := [⟨0, 0, 5, false, ⟨0, 0, 0⟩, ⟨0, 0, 0⟩⟩]
  mollist := [(5, ⟨1, false, false, 1, ⟨1, 1, 1⟩, 0, 0⟩)]
  currentMolId := 0
  runfraction := 1
  change := Change.cleared
  cnt := 0
  cntAccepted := 0
  dusum := 0
  useAlternative := false
  alternate := 0
  gU := 0
  gS := 0
  dU := 0
  dS := 0

/-- Concrete parameter pack for the atomic-translation witnesses. -/
def atomicDemoOps : MoveOps AtomicState :=
  atomicOps (fun _ => 1) (fun _ _ => ⟨0, 0, 0⟩) (fun q => q) (fun _ => 0)

/-- A complete run of the driver on the demo state: one accepted trial
(shared by the witnesses of several claims). -/
theorem atomicDemo_moveRel :
    ∃ out, MoveRel atomicDemoOps constRngs (fun _ => 0) (fun _ => 1) (fun _ => 1)
      1 atomicDemoState out := by
  have hacc : ∀ k, ¬ MetExceeds (constRngs.gUni k) (.finite 0) := by
    intro k
    simp [MetExceeds, constRngs, halfStream_eval]
    norm_num
  have hstep : TrialStep atomicDemoOps constRngs (fun _ => 0)
      ((runTest constRngs (selectPhase constRngs (fun _ => 1) (fun _ => 1)
        atomicDemoState 1).1).2, 0) _ :=
    TrialStep.accept _ _ _ 0 _ rfl rfl rfl
      (MetStep.accept _ _ (hacc _))
  exact ⟨_, MoveRel.run 1 atomicDemoState _ (by decide) (by decide)
    (LoopRel.succ 0 _ _ _ hstep (LoopRel.zero _))⟩

/-- Witness for C2: a complete accepted trial on the concrete demo state,
ending with synchronised vectors and a cleared change descriptor. -/
theorem atomic_move_synced_witness :
    ∃ out, MoveRel atomicDemoOps constRngs (fun _ => 0) (fun _ => 1) (fun _ => 1)
      1 atomicDemoState out ∧
      out.1.p = out.1.trial ∧ out.1.change = Change.cleared := by
  obtain ⟨out, hmr⟩ := atomicDemo_moveRel
  exact ⟨out, hmr, atomic_move_synced _ _ _ _ _ _ _ _ _ _ _ hmr rfl rfl⟩

/-- A move whose private operations leave the attempt counter and the run
fraction alone (true of every concrete move: both members belong to
`Movebase` and are only written by the driver itself). -/
def CounterNeutral (ops : MoveOps σ) : Prop :=
  (∀ R s s', ops.trialMove R s s' → s'.cnt = s.cnt ∧ s'.runfraction = s.runfraction) ∧
  (∀ R s e s', ops.energy R s (e, s') → s'.cnt = s.cnt ∧ s'.runfraction = s.runfraction) ∧
  (∀ s, (ops.acceptMove s).cnt = s.cnt ∧ (ops.acceptMove s).runfraction = s.runfraction) ∧
  (∀ s, (ops.rejectMove s).cnt = s.cnt ∧ (ops.rejectMove s).runfraction = s.runfraction)

theorem atomicOps_counterNeutral (atomDp : ℕ → ℚ)
    (massCenter : List Particle → GroupInfo → Pt3) (boundary : Pt3 → Pt3)
    (E : MState AtomicState → ℝ) :
    CounterNeutral (atomicOps atomDp massCenter boundary E) := by
  refine ⟨fun R s s' h => ?_, fun R s e s' h => ?_, fun s => ⟨rfl, rfl⟩,
    fun s => ⟨rfl, rfl⟩⟩
  · rw [show s' = atomicTrialMove atomDp massCenter boundary R s from h]
    exact ⟨rfl, rfl⟩
  · have hpair : (e, s') = (EnergyR.finite (E s), s) := h
    have hs' : s' = s := (Prod.ext_iff.mp hpair).2
    rw [hs']
    exact ⟨rfl, rfl⟩

theorem trialstep_cnt (ops : MoveOps σ) (R : Rngs) (potUpdate : Bool → ℝ)
    (su su' : MState σ × ℝ) (h : TrialStep ops R potUpdate su su')
    (hcn : CounterNeutral ops) :
    su'.1.cnt = su.1.cnt + 1 ∧ su'.1.runfraction = su.1.runfraction := by
  obtain ⟨ht, he, ha, hr⟩ := hcn
  cases h with
  | accept s utot s1 x s2 hclear htrial henergy hmet =>
      have h1 := ht R _ _ htrial
      have h2 := he R _ _ _ henergy
      have h3 := ha { s2 with gU := s2.gU + 1 }
      exact ⟨h3.1.trans (h2.1.trans h1.1), h3.2.trans (h2.2.trans h1.2)⟩
  | reject s utot s1 e s2 hclear htrial henergy hmet =>
      have h1 := ht R _ _ htrial
      have h2 := he R _ _ _ henergy
      have h3 := hr { s2 with gU := s2.gU + 1 }
      exact ⟨h3.1.trans (h2.1.trans h1.1), h3.2.trans (h2.2.trans h1.2)⟩

theorem loop_cnt (ops : MoveOps σ) (R : Rngs) (potUpdate : Bool → ℝ)
    (n : ℕ) (su su' : MState σ × ℝ) (h : LoopRel ops R potUpdate n su su')
    (hcn : CounterNeutral ops) :
    su'.1.cnt = su.1.cnt + n ∧ su'.1.runfraction = su.1.runfraction := by
  induction h with
  | zero => exact ⟨rfl, rfl⟩
  | succ n su su1 su2 hstep hrest ih =>
      have h1 := trialstep_cnt ops R potUpdate su su1 hstep hcn
      exact ⟨by rw [ih.1, h1.1]; omega, by rw [ih.2, h1.2]⟩

theorem lookupMol_set :
    ∀ (l : List (ℕ × MolData)) (k : ℕ) (md : MolData), k < l.length →
      (l.map Prod.fst).Nodup →
      lookupMol (l.set k ((l.getD k (0, default)).1, md)) (l.getD k (0, default)).1 = md
  | [], k, md, hk, _ => by simp at hk
  | e :: t, 0, md, _, _ => by
      simp [lookupMol, List.find?_cons, List.getD_cons_zero]
  | e :: t, k + 1, md, hk, hnd => by
      have hk' : k < t.length := by simpa using hk
      have hnd' : (e.1 :: t.map Prod.fst).Nodup := by simpa using hnd
      obtain ⟨hnotin, hndt⟩ := List.nodup_cons.mp hnd'
      have hmem : (t.getD k (0, default)) ∈ t := by
        rw [List.getD_eq_getElem _ _ hk']
        exact List.getElem_mem hk'
      have hne : e.1 ≠ (t.getD k (0, default)).1 := by
        intro hcontr
        exact hnotin (hcontr ▸ List.mem_map_of_mem Prod.fst hmem)
      simp only [List.getD_cons_succ, List.set_cons_succ, lookupMol, List.find?_cons,
        decide_eq_false hne]
      simpa only [lookupMol] using lookupMol_set t k md hk' hndt

theorem mollist_isEmpty_false (s : MState σ) (hml : s.mollist ≠ []) :
    s.mollist.isEmpty = false := by
  cases hml' : s.mollist with
  | nil => exact absurd hml' hml
  | cons a t => rfl

/-- The selected entry of the move list, its computed repeat count and its
probability, exactly as `randomMolId` followed by the reads in `move()`
produce them. -/
theorem selectPhase_spec (R : Rngs) (numMolecules frontSize : ℕ → ℕ)
    (s : MState σ) (n : ℕ) (hml : s.mollist ≠ [])
    (hnd : (s.mollist.map Prod.fst).Nodup) :
    (selectPhase R numMolecules frontSize s n).2 =
      1 * (if (s.mollist.getD (R.dSel s.dS % s.mollist.length) (0, default)).2.perMol
            then numMolecules (s.mollist.getD (R.dSel s.dS % s.mollist.length) (0, default)).1 else 1)
        * (if (s.mollist.getD (R.dSel s.dS % s.mollist.length) (0, default)).2.perAtom
            then frontSize (s.mollist.getD (R.dSel s.dS % s.mollist.length) (0, default)).1 else 1) ∧
    (selectPhase R numMolecules frontSize s n).1.runfraction =
      (s.mollist.getD (R.dSel s.dS % s.mollist.length) (0, default)).2.prob ∧
    (selectPhase R numMolecules frontSize s n).1.cnt = s.cnt := by
  have hie : s.mollist.isEmpty = false := mollist_isEmpty_false s hml
  have hk : R.dSel s.dS % s.mollist.length < s.mollist.length :=
    Nat.mod_lt _ (List.length_pos.mpr hml)
  have hlk := lookupMol_set s.mollist (R.dSel s.dS % s.mollist.length)
    { (s.mollist.getD (R.dSel s.dS % s.mollist.length) (0, default)).2 with
      repeatCount :=
        1 * (if (s.mollist.getD (R.dSel s.dS % s.mollist.length) (0, default)).2.perMol
              then numMolecules (s.mollist.getD (R.dSel s.dS % s.mollist.length) (0, default)).1 else 1)
          * (if (s.mollist.getD (R.dSel s.dS % s.mollist.length) (0, default)).2.perAtom
              then frontSize (s.mollist.getD (R.dSel s.dS % s.mollist.length) (0, default)).1 else 1) }
    hk hnd
  simp only [selectPhase, hie, Bool.false_eq_true, if_false]
  refine ⟨?_, ?_, trivial⟩
  · simpa using congrArg MolData.repeatCount hlk
  · simpa using congrArg MolData.prob hlk

/-- C4.  With a non-empty move list, `move(n)` overwrites `n` with the
selected entry's repeat count, computed at trial time as
`1 · (perMol ? numMolecules : 1) · (perAtom ? first-group size : 1)`, and
overwrites the run fraction with the entry's probability: the final run
fraction equals the selected probability, the loop bound handed to the
trial loop equals the computed repeat count, and when the run test passes
the attempt counter advances by exactly that repeat count. -/
theorem move_overwrites_repeat_runfraction (ops : MoveOps σ) (R : Rngs)
    (potUpdate : Bool → ℝ) (numMolecules frontSize : ℕ → ℕ) (n : ℕ)
    (s : MState σ) (out : MState σ × ℝ)
    (h : MoveRel ops R potUpdate numMolecules frontSize n s out)
    (hml : s.mollist ≠ []) (hnd : (s.mollist.map Prod.fst).Nodup)
    (hcn : CounterNeutral ops) :
    out.1.runfraction =
      (s.mollist.getD (R.dSel s.dS % s.mollist.length) (0, default)).2.prob ∧
    (selectPhase R numMolecules frontSize s n).2 =
      1 * (if (s.mollist.getD (R.dSel s.dS % s.mollist.length) (0, default)).2.perMol
            then numMolecules (s.mollist.getD (R.dSel s.dS % s.mollist.length) (0, default)).1 else 1)
        * (if (s.mollist.getD (R.dSel s.dS % s.mollist.length) (0, default)).2.perAtom
            then frontSize (s.mollist.getD (R.dSel s.dS % s.mollist.length) (0, default)).1 else 1) ∧
    (ops.runOk (selectPhase R numMolecules frontSize s n).1 = true →
      (runTest R (selectPhase R numMolecules frontSize s n).1).1 = true →
      out.1.cnt = s.cnt + (selectPhase R numMolecules frontSize s n).2) := by
  obtain ⟨hrep, hrf, hcnt⟩ := selectPhase_spec R numMolecules frontSize s n hml hnd
  cases h with
  | skipRun hok =>
      refine ⟨hrf, hrep, fun hok' _ => ?_⟩
      rw [hok'] at hok
      cases hok
  | failRun hok hrun =>
      refine ⟨hrf, hrep, fun _ hrun' => ?_⟩
      rw [hrun'] at hrun
      cases hrun
  | run out hok hrun hloop =>
      have hl := loop_cnt ops R potUpdate _ _ _ hloop hcn
      refine ⟨hl.2.trans hrf, hrep, fun _ _ => ?_⟩
      rw [hl.1]
      congr 1

/-- Witness for C4 on the concrete demo run: repeat count 1 and run
fraction 1, taken from the single move-list entry. -/
theorem move_overwrites_repeat_runfraction_witness :
    ∃ out, MoveRel atomicDemoOps constRngs (fun _ => 0) (fun _ => 1) (fun _ => 1)
      1 atomicDemoState out ∧
      out.1.runfraction =
        (atomicDemoState.mollist.getD
          (constRngs.dSel atomicDemoState.dS % atomicDemoState.mollist.length)
          (0, default)).2.prob := by
  obtain ⟨out, hmr⟩ := atomicDemo_moveRel
  refine ⟨out, hmr, ?_⟩
  exact (move_overwrites_repeat_runfraction atomicDemoOps constRngs (fun _ => 0)
    (fun _ => 1) (fun _ => 1) 1 atomicDemoState out hmr (by decide) (by decide)
    (atomicOps_counterNeutral _ _ _ _)).1

/-- The engine copy `_slump().eng = slump.eng` performed by the Propagator
constructor: the move-internal generator adopts the state of the global
generator. -/
def seedFromGlobal (R : Rngs) : Rngs :=
  { R with dUni := R.gUni, dSel := R.gSel }

/-- The Propagator's selection of one move per outer step,
`(*_slump().element(mPtr.begin(), mPtr.end()))->move()`: one draw from the
move-internal selection stream picks an index into the move list and the
dedicated cursor advances. -/
def propagatorPick (R : Rngs) (dS : ℕ) (numMoves : ℕ) : ℕ × ℕ :=
  (R.dSel dS % numMoves, dS + 1)

/-- C10, amended.  Molecule-id sampling (`randomMolId`), the run-fraction
test (`run`) and the Propagator's choice of move all read only the
move-internal generator: they are invariant under any change of the global
streams and never advance the global cursors; and the move-internal
generator is seeded from the global engine at Propagator construction.
(The full Markov trajectory is nevertheless not independent of global-RNG
consumption, since the Metropolis test and the trial displacements draw
from the global generator; see the counterexample.) -/
theorem move_selection_uses_dedicated_rng (R R' : Rngs)
    (hu : R.dUni = R'.dUni) (hs : R.dSel = R'.dSel)
    (numMolecules frontSize : ℕ → ℕ) (s : MState σ) (n : ℕ) :
    selectPhase R numMolecules frontSize s n =
      selectPhase R' numMolecules frontSize s n ∧
    (selectPhase R numMolecules frontSize s n).1.gU = s.gU ∧
    (selectPhase R numMolecules frontSize s n).1.gS = s.gS ∧
    (runTest R s).1 = (runTest R' s).1 ∧
    (runTest R s).2.gU = s.gU ∧ (runTest R s).2.gS = s.gS ∧
    (∀ dS numMoves, propagatorPick R dS numMoves = propagatorPick R' dS numMoves) ∧
    (seedFromGlobal R).dUni = R.gUni ∧ (seedFromGlobal R).dSel = R.gSel := by
  refine ⟨?_, ?_, ?_, ?_, ?_, ?_, ?_, rfl, rfl⟩
  · unfold selectPhase
    rw [hs]
  · unfold selectPhase
    split
    · rfl
    · rfl
  · unfold selectPhase
    split
    · rfl
    · rfl
  · unfold runTest
    rw [hu]
  · rfl
  · rfl
  · intro dS numMoves
    unfold propagatorPick
    rw [hs]

/-- Witness for the amended C10 at two concrete stream packs differing
only in their global components. -/
theorem move_selection_uses_dedicated_rng_witness :
    (constRngs.dUni = (seedFromGlobal constRngs).dUni) ∧
    (selectPhase constRngs (fun _ => 1) (fun _ => 1) atomicDemoState 1 =
      selectPhase { constRngs with gUni := fun _ => mkRat 1 3 } (fun _ => 1) (fun _ => 1)
        atomicDemoState 1) ∧
    (selectPhase constRngs (fun _ => 1) (fun _ => 1) atomicDemoState 1).1.gU =
      atomicDemoState.gU := by
  have h := move_selection_uses_dedicated_rng constRngs
    { constRngs with gUni := fun _ => mkRat 1 3 } rfl rfl
    (fun _ => 1) (fun _ => 1) atomicDemoState 1
  exact ⟨rfl, h.1, h.2.1⟩

/-- The stream pack for the trajectory counterexample: global uniform
draws 1/10 at cursor 3 and 9/10 at cursor 4, 1/2 elsewhere; the dedicated
streams are as in the demo. -/
def cexRngs : Rngs :=
  ⟨fun i => if i = 3 then mkRat 1 10 else if i = 4 then mkRat 9 10 else mkRat 1 2,
    fun _ => 0, halfStream, fun _ => 0⟩

/-- An adversarial (but perfectly legal) external geometry for the
counterexample: the boundary application maps every position to (7,0,0). -/
def cexBoundary : Pt3 → Pt3 := fun _ => ⟨7, 0, 0⟩

/-- Atomic translation with unit displacement parameters, the constant
boundary and a Hamiltonian that always reports an energy change of 1 kT. -/
def cexOps : MoveOps AtomicState :=
  atomicOps (fun _ => 1) (fun _ _ => ⟨0, 0, 0⟩) cexBoundary (fun _ => 1)

/-- Counterexample to C10 as stated: two runs that agree on the
move-internal generator and its cursors and differ only in the number of
draws already consumed from the global generator (gU cursor 0 versus 1,
e.g. one extra draw by the Hamiltonian) select the same move-list entry
but commit different particle vectors: the first run's Metropolis draw
(1/10) accepts while the second run's (9/10) rejects the same trial. -/
theorem dedicated_rng_trajectory_counterexample :
    ∃ outA outB,
      MoveRel cexOps cexRngs (fun _ => 0) (fun _ => 1) (fun _ => 1)
        1 atomicDemoState outA ∧
      MoveRel cexOps cexRngs (fun _ => 0) (fun _ => 1) (fun _ => 1)
        1 { atomicDemoState with gU := atomicDemoState.gU + 1 } outB ∧
      outA.1.p ≠ outB.1.p := by
  have hexp1 : Real.exp (-1) = (Real.exp 1)⁻¹ := by
    rw [Real.exp_neg]
  have hacc : ¬ MetExceeds (cexRngs.gUni 3) (.finite 1) := by
    simp only [MetExceeds, cexRngs]
    norm_num [Rat.mkRat_eq_div, hexp1]
    rw [le_inv_comm₀ (by norm_num) (Real.exp_pos 1)]
    calc Real.exp 1 ≤ 2.7182818286 := le_of_lt Real.exp_one_lt_d9
      _ ≤ (1 / 10 : ℝ)⁻¹ := by norm_num
  have hrej : MetExceeds (cexRngs.gUni 4) (.finite 1) := by
    simp only [MetExceeds, cexRngs]
    norm_num [Rat.mkRat_eq_div, hexp1]
    rw [inv_lt_comm₀ (Real.exp_pos 1) (by norm_num)]
    calc ((9 : ℝ) / 10)⁻¹ ≤ 2.7182818283 := by norm_num
      _ < Real.exp 1 := Real.exp_one_gt_d9
  have hstepA : TrialStep cexOps cexRngs (fun _ => 0)
      ((runTest cexRngs (selectPhase cexRngs (fun _ => 1) (fun _ => 1)
        atomicDemoState 1).1).2, 0) _ :=
    TrialStep.accept _ _ _ 1 _ rfl rfl rfl (MetStep.accept _ _ hacc)
  have hmrA : MoveRel cexOps cexRngs (fun _ => 0) (fun _ => 1) (fun _ => 1)
      1 atomicDemoState _ :=
    MoveRel.run 1 atomicDemoState _ (by decide) (by decide)
      (LoopRel.succ 0 _ _ _ hstepA (LoopRel.zero _))
  have hstepB : TrialStep cexOps cexRngs (fun _ => 0)
      ((runTest cexRngs (selectPhase cexRngs (fun _ => 1) (fun _ => 1)
        { atomicDemoState with gU := atomicDemoState.gU + 1 } 1).1).2, 0) _ :=
    TrialStep.reject _ _ _ (.finite 1) _ rfl rfl rfl (MetStep.reject _ _ hrej)
  have hmrB : MoveRel cexOps cexRngs (fun _ => 0) (fun _ => 1) (fun _ => 1)
      1 { atomicDemoState with gU := atomicDemoState.gU + 1 } _ :=
    MoveRel.run 1 _ _ (by decide) (by decide)
      (LoopRel.succ 0 _ _ _ hstepB (LoopRel.zero _))
  exact ⟨_, _, hmrA, hmrB, by decide⟩

/-- The change-descriptor registration loop of `Isobaric::_trialMove`:
group index `i` maps to every particle index `front..back` for an atomic
group (`std::iota` from `front` over `size` slots) and to the empty list
for a molecular group. -/
def isobaricMvGroup (groups : List GroupInfo) : List (ℕ × List ℕ) :=
  (List.range groups.length).map (fun i =>
    let g := groups.getD i default
    (i, if g.molecular then [] else (List.range g.size).map (· + g.front)))

/-- `Isobaric::_trialMove`: the new volume is
`exp(log V_old + half · dp)` with `half = uniform - 1/2`, the change
descriptor registers every group as above, and the volume change is
`V_new - V_old`.  The coordinate scaling itself goes through the external
`Group::scale` and `Geometry` collaborators and is not modelled here. -/
inductive IsobaricTrial (dp u : ℚ) (oldval : ℝ) (groups : List GroupInfo) :
    ℝ × Change → Prop
  | mk (newval : ℝ) (c : Change)
      (hnew : newval = Real.exp (Real.log oldval + ((u : ℝ) - 1 / 2) * (dp : ℝ)))
      (hmv : c.mvGroup = isobaricMvGroup groups)
      (hgc : c.geometryChange = true)
      (hdv : c.dV = newval - oldval) :
      IsobaricTrial dp u oldval groups (newval, c)

theorem find?_range_map (f : ℕ → List ℕ) :
    ∀ (n i : ℕ), i < n →
      (((List.range n).map (fun j => (j, f j))).find? (fun e => e.1 = i)) = some (i, f i) := by
  intro n
  induction n with
  | zero => omega
  | succ n ih =>
      intro i hi
      rw [List.range_succ, List.map_append, List.find?_append]
      by_cases h : i < n
      · rw [ih i h]
        rfl
      · have hin : i = n := by omega
        subst hin
        have hnone : ((List.range i).map (fun j => (j, f j))).find?
            (fun e => decide (e.1 = i)) = none := by
          apply List.find?_eq_none.mpr
          intro a ha
          simp only [List.mem_map, List.mem_range] at ha
          obtain ⟨j, hj, rfl⟩ := ha
          simp only [decide_eq_true_eq]
          omega
        rw [hnone]
        simp [List.find?]

theorem isobaricMvGroup_lookup (groups : List GroupInfo) (i : ℕ)
    (hi : i < groups.length) (c : Change) (hmv : c.mvGroup = isobaricMvGroup groups) :
    c.lookupGroup i = if (groups.getD i default).molecular then []
      else (List.range (groups.getD i default).size).map (· + (groups.getD i default).front) := by
  rw [Change.lookupGroup, hmv, isobaricMvGroup]
  rw [find?_range_map (fun j => if (groups.getD j default).molecular then []
    else (List.range (groups.getD j default).size).map (· + (groups.getD j default).front))
    groups.length i hi]
  rfl

/-- C5.  The isobaric volume move proposes
`V_new = exp(ln V_old + dp · (uniform - 1/2))` and records
`geometryChange = true`, `dV = V_new - V_old`, every particle index of
every atomic group and an empty particle list for every molecular group. -/
theorem isobaric_trial_spec (dp u : ℚ) (oldval : ℝ) (groups : List GroupInfo)
    (out : ℝ × Change) (h : IsobaricTrial dp u oldval groups out) :
    out.1 = Real.exp (Real.log oldval + ((u : ℝ) - 1 / 2) * (dp : ℝ)) ∧
    out.2.geometryChange = true ∧
    out.2.dV = out.1 - oldval ∧
    (∀ i, i < groups.length →
      (¬ (groups.getD i default).molecular = true →
        out.2.lookupGroup i =
          (List.range (groups.getD i default).size).map (· + (groups.getD i default).front)) ∧
      ((groups.getD i default).molecular = true → out.2.lookupGroup i = [])) := by
  cases h with
  | mk newval c hnew hmv hgc hdv =>
      refine ⟨hnew, hgc, hdv, fun i hi => ?_⟩
      have hl := isobaricMvGroup_lookup groups i hi c hmv
      constructor
      · intro hmol
        rw [hl, if_neg hmol]
      · intro hmol
        rw [hl, if_pos hmol]

/-- Witness for C5 on a two-group system (one atomic, one molecular). -/
theorem isobaric_trial_spec_witness :
    ∃ out, IsobaricTrial 1 (mkRat 1 2) 1
      [⟨0, 1, 5, false, ⟨0, 0, 0⟩, ⟨0, 0, 0⟩⟩, ⟨2, 3, 6, true, ⟨0, 0, 0⟩, ⟨0, 0, 0⟩⟩] out ∧
      out.2.geometryChange = true ∧
      out.2.lookupGroup 0 = [0, 1] ∧ out.2.lookupGroup 1 = [] := by
  have hI : IsobaricTrial 1 (mkRat 1 2) 1
      [⟨0, 1, 5, false, ⟨0, 0, 0⟩, ⟨0, 0, 0⟩⟩, ⟨2, 3, 6, true, ⟨0, 0, 0⟩, ⟨0, 0, 0⟩⟩]
      (Real.exp (Real.log 1 + ((mkRat 1 2 : ℚ) - 1 / 2) * ((1 : ℚ) : ℝ)),
        ⟨isobaricMvGroup [⟨0, 1, 5, false, ⟨0, 0, 0⟩, ⟨0, 0, 0⟩⟩,
          ⟨2, 3, 6, true, ⟨0, 0, 0⟩, ⟨0, 0, 0⟩⟩], true,
          Real.exp (Real.log 1 + ((mkRat 1 2 : ℚ) - 1 / 2) * ((1 : ℚ) : ℝ)) - 1⟩) :=
    IsobaricTrial.mk _ _ rfl rfl rfl rfl
  have h := isobaric_trial_spec 1 (mkRat 1 2) 1 _ _ hI
  refine ⟨_, hI, h.2.1, ?_, (h.2.2.2 1 (by norm_num)).2 (by decide)⟩
  have := (h.2.2.2 0 (by norm_num)).1 (by decide)
  simpa [GroupInfo.size] using this

/-- The default `TranslateRotateCluster::ClusterProbability`: walk the
seed group; as soon as some member `j ≠ i` satisfies
`sqdist(p[i], p[j]) < (threshold + radius_i + radius_j)²` return 1,
otherwise return 0.  The squared distance function belongs to the external
geometry and enters as a parameter. -/
def clusterProbability (sqdist : Pt3 → Pt3 → ℚ) (thr : ℚ) (p : List Particle)
    (i : ℕ) : List ℕ → ℚ
  | [] => 0
  | j :: rest =>
      if i ≠ j ∧ sqdist (pAt p i).pos (pAt p j).pos <
          (thr + (pAt p i).radius + (pAt p j).radius) ^ 2
      then 1 else clusterProbability sqdist thr p i rest

/-- The cluster-construction loop of `TranslateRotateCluster::_trialMove`:
one global uniform draw per mobile particle, recruiting `i` into `cindex`
whenever `ClusterProbability(p, i) > slump()`; returns the cluster list
and the advanced cursor. -/
def buildCindex (sqdist : Pt3 → Pt3 → ℚ) (thr : ℚ) (p : List Particle)
    (igroup : List ℕ) (uni : ℕ → ℚ) : ℕ → List ℕ → List ℕ × ℕ
  | k, [] => ([], k)
  | k, i :: rest =>
      let r := buildCindex sqdist thr p igroup uni (k + 1) rest
      if clusterProbability sqdist thr p i igroup > uni k
      then (i :: r.1, r.2) else r

/-- The proposal of `TranslateRotate::_trialMove` acting on the trial
configuration: rotate the whole group when `dp_rot > 1e-6`, then translate
it when `dp_trans > 1e-6`.  The group rotation and translation for the
sampled axis, angle and displacement are the external `Group::rotate` /
`Group::translate` collaborators `gRot` and `gTrans`. -/
def baseTrialCfg (dpRot dpTrans : ℚ) (gRot gTrans : List Particle → List Particle)
    (trial : List Particle) : List Particle :=
  let r := if mkRat 1 1000000 < dpRot then gRot trial else trial
  if mkRat 1 1000000 < dpTrans then gTrans r else r

/-- The proposal of `TranslateRotateCluster::_trialMove` on the trial
configuration: the same two phases as the plain move, each additionally
applying the sampled rotation `vrot` (respectively the sampled translation
`tMove`) to every clustered particle. -/
def clusterTrialCfg (dpRot dpTrans : ℚ) (gRot gTrans : List Particle → List Particle)
    (vrot tMove : Particle → Particle) (cindex : List ℕ)
    (trial : List Particle) : List Particle :=
  let r := if mkRat 1 1000000 < dpRot then
      cindex.foldl (fun cfg i => cfg.set i (vrot (pAt cfg i))) (gRot trial)
    else trial
  if mkRat 1 1000000 < dpTrans then
    cindex.foldl (fun cfg i => cfg.set i (tMove (pAt cfg i))) (gTrans r)
  else r

/-- Committed configuration with a seed particle and a mobile particle
overlapping it (both at the origin, radius 1 each). -/
def clusterCexCfg : List Particle :=
  [⟨⟨0, 0, 0⟩, 1, 0, 1⟩, ⟨⟨0, 0, 0⟩, -1, 1, 1⟩]

/-- Euclidean squared distance (the free-boundary geometry). -/
def euclidSqdist (a b : Pt3) : ℚ :=
  (a.x - b.x) ^ 2 + (a.y - b.y) ^ 2 + (a.z - b.z) ^ 2

/-- Counterexample to C8 as stated: with threshold 0 the cluster is NOT
always the seed alone.  A mobile particle overlapping a seed particle
(centre distance below the sum of the radii) has cluster probability 1 and
is recruited, so the cluster is the seed plus that particle. -/
theorem cluster_threshold_zero_counterexample :
    clusterProbability euclidSqdist 0 clusterCexCfg 1 [0] = 1 ∧
    (buildCindex euclidSqdist 0 clusterCexCfg [0] halfStream 0 [1]).1 = [1] := by
  have hp : clusterProbability euclidSqdist 0 clusterCexCfg 1 [0] = 1 := by
    rw [clusterProbability, if_pos]
    refine ⟨by norm_num, ?_⟩
    norm_num [euclidSqdist, clusterCexCfg, pAt]
  refine ⟨hp, ?_⟩
  rw [buildCindex, buildCindex]
  rw [if_pos]
  rw [hp, halfStream_eval]
  norm_num

/-- With threshold 0 and no mobile particle strictly overlapping any seed
particle, every cluster probability is 0. -/
theorem clusterProbability_zero (sqdist : Pt3 → Pt3 → ℚ) (p : List Particle)
    (i : ℕ) (igroup : List ℕ)
    (hnov : ∀ j ∈ igroup, i ≠ j →
      ¬ sqdist (pAt p i).pos (pAt p j).pos <
        ((0 : ℚ) + (pAt p i).radius + (pAt p j).radius) ^ 2) :
    clusterProbability sqdist 0 p i igroup = 0 := by
  induction igroup with
  | nil => rfl
  | cons j rest ih =>
      rw [clusterProbability, if_neg]
      · exact ih (fun j' hj' => hnov j' (List.mem_cons_of_mem j hj'))
      · rintro ⟨hne, hlt⟩
        exact hnov j (List.mem_cons_self j rest) hne hlt

/-- C8, amended.  With threshold 0, provided no mobile particle strictly
overlaps a seed particle (centre distance at least the sum of the radii)
in the committed configuration, no mobile particle is recruited — the
cluster is the seed alone — and the proposed trial configuration of the
cluster move coincides with that of the ordinary group translate/rotate
for the same sampled rotation and translation. -/
theorem cluster_threshold_zero_amended (sqdist : Pt3 → Pt3 → ℚ)
    (p : List Particle) (igroup mobile : List ℕ) (uni : ℕ → ℚ) (k : ℕ)
    (hnov : ∀ i ∈ mobile, ∀ j ∈ igroup, i ≠ j →
      ¬ sqdist (pAt p i).pos (pAt p j).pos <
        ((0 : ℚ) + (pAt p i).radius + (pAt p j).radius) ^ 2)
    (hdraws : ∀ n, 0 ≤ uni n) :
    (buildCindex sqdist 0 p igroup uni k mobile).1 = [] ∧
    (∀ (dpRot dpTrans : ℚ) (gRot gTrans : List Particle → List Particle)
      (vrot tMove : Particle → Particle) (trial : List Particle),
      clusterTrialCfg dpRot dpTrans gRot gTrans vrot tMove
        (buildCindex sqdist 0 p igroup uni k mobile).1 trial =
      baseTrialCfg dpRot dpTrans gRot gTrans trial) := by
  have hnil : ∀ k', (buildCindex sqdist 0 p igroup uni k' mobile).1 = [] := by
    induction mobile with
    | nil => intro k'; rfl
    | cons i rest ih =>
        intro k'
        rw [buildCindex, if_neg]
        · exact ih (fun i' hi' => hnov i' (List.mem_cons_of_mem i hi')) (k' + 1)
        · rw [clusterProbability_zero sqdist p i igroup
            (hnov i (List.mem_cons_self i rest))]
          exact not_lt.mpr (hdraws k')
  refine ⟨hnil k, fun dpRot dpTrans gRot gTrans vrot tMove trial => ?_⟩
  rw [hnil k]
  rw [clusterTrialCfg, baseTrialCfg]
  simp only [List.foldl_nil]

/-- Witness for the amended C8: seed at the origin, mobile particle at
distance 3 with radii summing to 2 — nothing is recruited and the two
proposals coincide. -/
theorem cluster_threshold_zero_amended_witness :
    (buildCindex euclidSqdist 0
      [⟨⟨0, 0, 0⟩, 1, 0, 1⟩, ⟨⟨3, 0, 0⟩, -1, 1, 1⟩] [0] halfStream 0 [1]).1 = [] ∧
    clusterTrialCfg 1 1 id id id id
      (buildCindex euclidSqdist 0
        [⟨⟨0, 0, 0⟩, 1, 0, 1⟩, ⟨⟨3, 0, 0⟩, -1, 1, 1⟩] [0] halfStream 0 [1]).1
      [⟨⟨0, 0, 0⟩, 1, 0, 1⟩, ⟨⟨3, 0, 0⟩, -1, 1, 1⟩] =
      baseTrialCfg 1 1 id id [⟨⟨0, 0, 0⟩, 1, 0, 1⟩, ⟨⟨3, 0, 0⟩, -1, 1, 1⟩] := by
  have h := cluster_threshold_zero_amended euclidSqdist
    [⟨⟨0, 0, 0⟩, 1, 0, 1⟩, ⟨⟨3, 0, 0⟩, -1, 1, 1⟩] [0] [1] halfStream 0
    (by
      intro i hi j hj hne
      simp only [List.mem_singleton] at hi hj
      subst hi
      subst hj
      norm_num [euclidSqdist, pAt])
    (fun n => by rw [halfStream_eval]; norm_num)
  exact ⟨h.1, h.2 1 1 id id id id _⟩

/-- The bias loop of `TranslateRotateCluster::_energyChange`: over every
mobile particle `l` not in the cluster,
`bias *= (1 - P(trial, l)) / (1 - P(p, l))`, starting from 1.  `P` is the
virtual `ClusterProbability` (overridable in derived classes), taking the
configuration and the particle index. -/
def clusterBias (P : List Particle → ℕ → ℚ) (ptrial pcom : List Particle)
    (gmobile cindex : List ℕ) : ℚ :=
  gmobile.foldl (fun b l => if l ∈ cindex then b
    else b * ((1 - P ptrial l) / (1 - P pcom l))) 1

/-- Sum of the external single-particle energies over an index list
(the `i_external` accumulation loops). -/
def sumIext (iext : List Particle → ℕ → ℚ) (cfg : List Particle)
    (l : List ℕ) : ℚ :=
  l.foldl (fun a i => a + iext cfg i) 0

/-- The pair-energy double loop of `TranslateRotateCluster::_energyChange`:
over every particle `j` of the system not among the moved indices and
every moved index `i`, accumulate `i2i(trial,i,j) - i2i(p,i,j)`. -/
def trcPairSum (i2i : List Particle → ℕ → ℕ → ℚ) (ptrial pcom : List Particle)
    (imoved : List ℕ) : ℚ :=
  ((List.range pcom.length).filter (fun j => ¬ j ∈ imoved)).foldl
    (fun acc j => acc + imoved.foldl
      (fun a i => a + (i2i ptrial i j - i2i pcom i j)) 0) 0

/-- The total interaction energy change `unew - uold + du` assembled by
`TranslateRotateCluster::_energyChange` before the bias correction. -/
def trcInteraction (i2i : List Particle → ℕ → ℕ → ℚ)
    (gext : List Particle → List ℕ → ℚ) (iext : List Particle → ℕ → ℚ)
    (ptrial pcom : List Particle) (igroup cindex : List ℕ) : ℚ :=
  gext ptrial igroup + sumIext iext ptrial cindex
    - (gext pcom igroup + sumIext iext pcom cindex)
    + trcPairSum i2i ptrial pcom (cindex ++ igroup)

/-- `TranslateRotateCluster::_energyChange`, with its early exits in source
order: an immediate infinity when the bias falls below 1e-7 (before any
interaction evaluation), zero when both displacement parameters are below
1e-6, infinity on a container-boundary collision of any moved particle or
on an infinite external energy of the moved group, and otherwise
`unew - uold + du - log(bias)`.  `collide` models the geometry collision
test and `gextNewInf` the `unew == pc::infty` comparison. -/
inductive TrcEnergy (P : List Particle → ℕ → ℚ)
    (i2i : List Particle → ℕ → ℕ → ℚ) (gext : List Particle → List ℕ → ℚ)
    (iext : List Particle → ℕ → ℚ) (collide : Particle → Bool)
    (gextNewInf : Bool) (dpRot dpTrans : ℚ) (ptrial pcom : List Particle)
    (gmobile cindex igroup : List ℕ) : EnergyR → Prop
  | biasReject
      (h : clusterBias P ptrial pcom gmobile cindex < mkRat 1 10000000) :
      TrcEnergy P i2i gext iext collide gextNewInf dpRot dpTrans ptrial pcom
        gmobile cindex igroup .infty
  | zeroDp
      (h : ¬ clusterBias P ptrial pcom gmobile cindex < mkRat 1 10000000)
      (hrot : dpRot < mkRat 1 1000000) (htr : dpTrans < mkRat 1 1000000) :
      TrcEnergy P i2i gext iext collide gextNewInf dpRot dpTrans ptrial pcom
        gmobile cindex igroup (.finite 0)
  | collision
      (h : ¬ clusterBias P ptrial pcom gmobile cindex < mkRat 1 10000000)
      (hdp : ¬ (dpRot < mkRat 1 1000000 ∧ dpTrans < mkRat 1 1000000))
      (hcol : (cindex ++ igroup).any (fun i => collide (pAt ptrial i)) = true) :
      TrcEnergy P i2i gext iext collide gextNewInf dpRot dpTrans ptrial pcom
        gmobile cindex igroup .infty
  | extInfty
      (h : ¬ clusterBias P ptrial pcom gmobile cindex < mkRat 1 10000000)
      (hdp : ¬ (dpRot < mkRat 1 1000000 ∧ dpTrans < mkRat 1 1000000))
      (hcol : (cindex ++ igroup).any (fun i => collide (pAt ptrial i)) = false)
      (hinf : gextNewInf = true) :
      TrcEnergy P i2i gext iext collide gextNewInf dpRot dpTrans ptrial pcom
        gmobile cindex igroup .infty
  | main
      (h : ¬ clusterBias P ptrial pcom gmobile cindex < mkRat 1 10000000)
      (hdp : ¬ (dpRot < mkRat 1 1000000 ∧ dpTrans < mkRat 1 1000000))
      (hcol : (cindex ++ igroup).any (fun i => collide (pAt ptrial i)) = false)
      (hinf : gextNewInf = false) (e : ℝ)
      (he : e = (trcInteraction i2i gext iext ptrial pcom igroup cindex : ℝ)
        - Real.log (clusterBias P ptrial pcom gmobile cindex : ℝ)) :
      TrcEnergy P i2i gext iext collide gextNewInf dpRot dpTrans ptrial pcom
        gmobile cindex igroup (.finite e)

theorem mkRat_small_pos : (0 : ℚ) < mkRat 1 10000000 := by
  rw [Rat.mkRat_eq_div]
  norm_num

/-- C3, amended.  In the cluster move the acceptance criterion is
`uniform ≤ bias · exp(-dU)` (the draw equal to the threshold is accepted),
where `bias` is the product over every mobile particle not in the cluster
of `(1 - P_new) / (1 - P_old)`; and whenever `bias < 1e-7` the reported
energy is infinite — for every interaction Hamiltonian, i.e. without
evaluating the interaction energy change — and the trial is rejected
deterministically (every positive draw exceeds `exp(-inf) = 0`). -/
theorem cluster_bias_acceptance (P : List Particle → ℕ → ℚ)
    (i2i : List Particle → ℕ → ℕ → ℚ) (gext : List Particle → List ℕ → ℚ)
    (iext : List Particle → ℕ → ℚ) (collide : Particle → Bool)
    (gextNewInf : Bool) (dpRot dpTrans : ℚ) (ptrial pcom : List Particle)
    (gmobile cindex igroup : List ℕ) :
    (clusterBias P ptrial pcom gmobile cindex < mkRat 1 10000000 →
      TrcEnergy P i2i gext iext collide gextNewInf dpRot dpTrans ptrial pcom
        gmobile cindex igroup .infty ∧
      (∀ (uni : ℕ → ℚ) (k k' : ℕ) (b : Bool), 0 < uni k →
        MetStep uni k .infty (b, k') → b = false)) ∧
    (¬ clusterBias P ptrial pcom gmobile cindex < mkRat 1 10000000 →
      ∀ e, TrcEnergy P i2i gext iext collide gextNewInf dpRot dpTrans ptrial
          pcom gmobile cindex igroup (.finite e) →
        ¬ (dpRot < mkRat 1 1000000 ∧ dpTrans < mkRat 1 1000000) →
        e = (trcInteraction i2i gext iext ptrial pcom igroup cindex : ℝ)
          - Real.log (clusterBias P ptrial pcom gmobile cindex : ℝ) ∧
        (∀ (uni : ℕ → ℚ) (k k' : ℕ) (b : Bool),
          MetStep uni k (.finite e) (b, k') →
          (b = true ↔ (uni k : ℝ) ≤ (clusterBias P ptrial pcom gmobile cindex : ℝ)
            * Real.exp (-(trcInteraction i2i gext iext ptrial pcom igroup cindex : ℝ))))) := by
  constructor
  · intro hsmall
    refine ⟨TrcEnergy.biasReject hsmall, ?_⟩
    intro uni k k' b hu hstep
    cases hstep with
    | reject h => rfl
    | accept h =>
        exfalso
        apply h
        show (uni k : ℝ) > 0
        exact_mod_cast hu
  · intro hbig e he hdp
    have hBpos : (0 : ℝ) < (clusterBias P ptrial pcom gmobile cindex : ℝ) := by
      have h1 : (mkRat 1 10000000 : ℚ) ≤ clusterBias P ptrial pcom gmobile cindex :=
        not_lt.mp hbig
      have h2 : (0 : ℚ) < clusterBias P ptrial pcom gmobile cindex :=
        lt_of_lt_of_le mkRat_small_pos h1
      exact_mod_cast h2
    have hee : e = (trcInteraction i2i gext iext ptrial pcom igroup cindex : ℝ)
        - Real.log (clusterBias P ptrial pcom gmobile cindex : ℝ) := by
      cases he with
      | zeroDp hx hrot htr => exact absurd ⟨hrot, htr⟩ hdp
      | main =>
          rename_i he2
          exact he2
    have hexp : Real.exp (-e) = (clusterBias P ptrial pcom gmobile cindex : ℝ)
        * Real.exp (-(trcInteraction i2i gext iext ptrial pcom igroup cindex : ℝ)) := by
      rw [hee, neg_sub, Real.exp_sub, Real.exp_log hBpos, Real.exp_neg]
      rw [div_eq_mul_inv]
    refine ⟨hee, ?_⟩
    intro uni k k' b hstep
    cases hstep with
    | reject h =>
        simp only [Bool.false_eq_true, false_iff]
        intro hle
        have : (uni k : ℝ) > Real.exp (-e) := h
        rw [hexp] at this
        linarith
    | accept h =>
        simp only [true_iff]
        have : ¬ (uni k : ℝ) > Real.exp (-e) := h
        rw [hexp] at this
        linarith [not_lt.mp this]

/-- Trial and committed configurations used by the bias counterexample. -/
def trcTrialCfg : List Particle := [⟨⟨1, 0, 0⟩, 0, 0, 0⟩]

/-- Committed configuration of the bias counterexample (distinct from the
trial one, so a configuration-dependent probability can tell them apart). -/
def trcComCfg : List Particle := [⟨⟨0, 0, 0⟩, 0, 0, 0⟩]

/-- A legal override of the virtual `ClusterProbability` for the
counterexample: probability 1/2 for the trial configuration, 0 otherwise. -/
def trcHalfP : List Particle → ℕ → ℚ :=
  fun cfg _ => if cfg = trcTrialCfg then mkRat 1 2 else 0

theorem trcHalfP_bias :
    clusterBias trcHalfP trcTrialCfg trcComCfg [0] [] = mkRat 1 2 := by
  rw [clusterBias, List.foldl_cons, List.foldl_nil]
  rw [if_neg (by simp)]
  rw [trcHalfP, trcHalfP]
  rw [if_pos rfl, if_neg (by decide)]
  rw [Rat.mkRat_eq_div]
  norm_num

theorem trcZero_interaction :
    trcInteraction (fun _ _ _ => 0) (fun _ _ => 0) (fun _ _ => 0)
      trcTrialCfg trcComCfg [0] [] = 0 := by
  rw [trcInteraction, trcPairSum]
  norm_num [sumIext, trcComCfg]

/-- Counterexample to C3 as stated: the criterion is not the strict
`uniform < bias · exp(-dU)`.  With bias 1/2, zero interaction energy and
the draw exactly 1/2 the code accepts (`metropolis` rejects only on
strictly greater), while the claimed strict criterion would reject. -/
theorem cluster_bias_strict_counterexample :
    TrcEnergy trcHalfP (fun _ _ _ => 0) (fun _ _ => 0) (fun _ _ => 0)
      (fun _ => false) false 1 1 trcTrialCfg trcComCfg [0] [] [0]
      (.finite ((trcInteraction (fun _ _ _ => 0) (fun _ _ => 0) (fun _ _ => 0)
        trcTrialCfg trcComCfg [0] [] : ℝ)
        - Real.log (clusterBias trcHalfP trcTrialCfg trcComCfg [0] [] : ℝ))) ∧
    MetStep halfStream 0
      (.finite ((trcInteraction (fun _ _ _ => 0) (fun _ _ => 0) (fun _ _ => 0)
        trcTrialCfg trcComCfg [0] [] : ℝ)
        - Real.log (clusterBias trcHalfP trcTrialCfg trcComCfg [0] [] : ℝ)))
      (true, 1) ∧
    ¬ ((halfStream 0 : ℝ) < (clusterBias trcHalfP trcTrialCfg trcComCfg [0] [] : ℝ)
        * Real.exp (-(trcInteraction (fun _ _ _ => 0) (fun _ _ => 0) (fun _ _ => 0)
          trcTrialCfg trcComCfg [0] [] : ℝ))) := by
  have hbias := trcHalfP_bias
  have hU := trcZero_interaction
  have hval : (trcInteraction (fun _ _ _ => 0) (fun _ _ => 0) (fun _ _ => 0)
      trcTrialCfg trcComCfg [0] [] : ℝ) = 0 := by
    rw [hU]
    norm_num
  have hbval : (clusterBias trcHalfP trcTrialCfg trcComCfg [0] [] : ℝ) = 1 / 2 := by
    rw [hbias, Rat.mkRat_eq_div]
    norm_num
  have hbig : ¬ clusterBias trcHalfP trcTrialCfg trcComCfg [0] [] < mkRat 1 10000000 := by
    rw [hbias]
    rw [Rat.mkRat_eq_div, Rat.mkRat_eq_div]
    norm_num
  have hexp : Real.exp (-((trcInteraction (fun _ _ _ => 0) (fun _ _ => 0)
      (fun _ _ => 0) trcTrialCfg trcComCfg [0] [] : ℝ)
      - Real.log (clusterBias trcHalfP trcTrialCfg trcComCfg [0] [] : ℝ))) = 1 / 2 := by
    rw [hval, hbval]
    rw [zero_sub, neg_neg, Real.exp_log (by norm_num)]
  refine ⟨TrcEnergy.main hbig (by rw [Rat.mkRat_eq_div]; norm_num) (by decide) rfl _ rfl, ?_, ?_⟩
  · apply MetStep.accept
    rw [MetExceeds, hexp, halfStream_eval]
    push_cast
    norm_num
  · rw [hbval, hval, halfStream_eval]
    push_cast
    norm_num

/-- Witness for the amended C3 at the concrete half-bias instance: the
code's test accepts the draw 1/10 and the characterisation agrees. -/
theorem cluster_bias_acceptance_witness :
    (¬ clusterBias trcHalfP trcTrialCfg trcComCfg [0] [] < mkRat 1 10000000) ∧
    ((true = true) ↔ ((mkRat 1 10 : ℚ) : ℝ) ≤
      (clusterBias trcHalfP trcTrialCfg trcComCfg [0] [] : ℝ)
        * Real.exp (-(trcInteraction (fun _ _ _ => 0) (fun _ _ => 0) (fun _ _ => 0)
          trcTrialCfg trcComCfg [0] [] : ℝ))) := by
  have hbias := trcHalfP_bias
  have hbig : ¬ clusterBias trcHalfP trcTrialCfg trcComCfg [0] [] < mkRat 1 10000000 := by
    rw [hbias, Rat.mkRat_eq_div, Rat.mkRat_eq_div]
    norm_num
  have hval : (trcInteraction (fun _ _ _ => 0) (fun _ _ => 0) (fun _ _ => 0)
      trcTrialCfg trcComCfg [0] [] : ℝ) = 0 := by
    rw [trcZero_interaction]
    norm_num
  have hbval : (clusterBias trcHalfP trcTrialCfg trcComCfg [0] [] : ℝ) = 1 / 2 := by
    rw [hbias, Rat.mkRat_eq_div]
    norm_num
  have hexp : Real.exp (-((trcInteraction (fun _ _ _ => 0) (fun _ _ => 0)
      (fun _ _ => 0) trcTrialCfg trcComCfg [0] [] : ℝ)
      - Real.log (clusterBias trcHalfP trcTrialCfg trcComCfg [0] [] : ℝ))) = 1 / 2 := by
    rw [hval, hbval, zero_sub, neg_neg, Real.exp_log (by norm_num)]
  have hmet : MetStep (fun _ => mkRat 1 10) 0
      (.finite ((trcInteraction (fun _ _ _ => 0) (fun _ _ => 0) (fun _ _ => 0)
        trcTrialCfg trcComCfg [0] [] : ℝ)
        - Real.log (clusterBias trcHalfP trcTrialCfg trcComCfg [0] [] : ℝ)))
      (true, 1) := by
    apply MetStep.accept
    rw [MetExceeds, hexp]
    rw [show ((mkRat 1 10 : ℚ) : ℝ) = 1 / 10 by rw [Rat.mkRat_eq_div]; push_cast; norm_num]
    norm_num
  have h := (cluster_bias_acceptance trcHalfP (fun _ _ _ => 0) (fun _ _ => 0)
    (fun _ _ => 0) (fun _ => false) false 1 1 trcTrialCfg trcComCfg
    [0] [] [0]).2 hbig _
    (TrcEnergy.main hbig (by rw [Rat.mkRat_eq_div]; norm_num) (by decide) rfl _ rfl)
    (by rw [Rat.mkRat_eq_div]; norm_num)
  exact ⟨hbig, h.2 (fun _ => mkRat 1 10) 0 1 true hmet⟩

/-- The inner recruitment scan of `ClusterTranslateNR::_trialMove` for one
moved group `i`: walk the remaining groups in order, consuming one global
uniform draw per examined group `j` and recruiting `j` exactly when
`slump() < 1 - exp(-(g2g(trial,i,j) - g2g(p,i,j)))`.  The output is the
list of recruited groups, the groups still remaining and the advanced
cursor.  `g2g` is the external group-pair Hamiltonian. -/
inductive CtnrSweep (g2g : List Particle → ℕ → ℕ → ℚ) (uni : ℕ → ℚ)
    (pcom ptrial : List Particle) (i : ℕ) :
    ℕ → List ℕ → List ℕ × List ℕ × ℕ → Prop
  | nil (k : ℕ) : CtnrSweep g2g uni pcom ptrial i k [] ([], [], k)
  | recruit (k j : ℕ) (rest m r : List ℕ) (k' : ℕ)
      (h : (uni k : ℝ) < 1 - Real.exp (-((g2g ptrial i j - g2g pcom i j : ℚ) : ℝ)))
      (hrest : CtnrSweep g2g uni pcom ptrial i (k + 1) rest (m, r, k')) :
      CtnrSweep g2g uni pcom ptrial i k (j :: rest) (j :: m, r, k')
  | keep (k j : ℕ) (rest m r : List ℕ) (k' : ℕ)
      (h : ¬ (uni k : ℝ) < 1 - Real.exp (-((g2g ptrial i j - g2g pcom i j : ℚ) : ℝ)))
      (hrest : CtnrSweep g2g uni pcom ptrial i (k + 1) rest (m, r, k')) :
      CtnrSweep g2g uni pcom ptrial i k (j :: rest) (m, j :: r, k')

/-- Worklist state of the cluster-growth loop of
`ClusterTranslateNR::_trialMove`. -/
structure CtnrState where
  moved : List ℕ
  pending : List ℕ
  remaining : List ℕ
  pcom : List Particle
  ptrial : List Particle
  k : ℕ

/-- The outer growth loop: process the moved groups in the order they were
added; each step translates the group in the trial configuration
(`g[moved[i]]->translate`, external collaborator `translateG`), sweeps the
remaining groups, appends the recruits to the moved list, and commits the
group (`g[moved[i]]->accept`, external collaborator `commitG`). -/
inductive CtnrGrow (g2g : List Particle → ℕ → ℕ → ℚ) (uni : ℕ → ℚ)
    (translateG : ℕ → List Particle → List Particle)
    (commitG : ℕ → List Particle → List Particle → List Particle) :
    CtnrState → CtnrState → Prop
  | done (st : CtnrState) (h : st.pending = []) : CtnrGrow g2g uni translateG commitG st st
  | step (st : CtnrState) (i : ℕ) (pending' m r : List ℕ) (k' : ℕ)
      (out : CtnrState) (hp : st.pending = i :: pending')
      (hsweep : CtnrSweep g2g uni st.pcom (translateG i st.ptrial) i st.k
        st.remaining (m, r, k'))
      (hnext : CtnrGrow g2g uni translateG commitG
        { moved := st.moved ++ [i], pending := pending' ++ m, remaining := r,
          pcom := commitG i st.pcom (translateG i st.ptrial),
          ptrial := translateG i st.ptrial, k := k' } out) :
      CtnrGrow g2g uni translateG commitG st out

/-- The overridden `ClusterTranslateNR::_energyChange`, which always
returns 0 (the move reports its energy through the alternate return
energy instead). -/
def ctnrEnergyChange : EnergyR := .finite 0

theorem ctnrSweep_subset (g2g : List Particle → ℕ → ℕ → ℚ) (uni : ℕ → ℚ)
    (pcom ptrial : List Particle) (i : ℕ) (k : ℕ) (rem : List ℕ)
    (out : List ℕ × List ℕ × ℕ)
    (h : CtnrSweep g2g uni pcom ptrial i k rem out) :
    ∀ x ∈ out.1, x ∈ rem := by
  induction h with
  | nil k => intro x hx; cases hx
  | recruit k j rest m r k' hc hrest ih =>
      intro x hx
      cases hx with
      | head => exact List.mem_cons_self j rest
      | tail _ hx' => exact List.mem_cons_of_mem j (ih x hx')
  | keep k j rest m r k' hc hrest ih =>
      intro x hx
      exact List.mem_cons_of_mem j (ih x hx)

/-- C7.  The rejection-free cluster translation (i) accepts every executed
trial: its `_energyChange` returns 0, so the Metropolis test passes for
every admissible draw; (ii) during growth the group at the head of
`remaining` is recruited into the cluster exactly when its uniform draw is
below `1 - exp(-dU_ij)`; and (iii) when every `dU_ij` is nonpositive
nothing is recruited (the probability is capped at 0). -/
theorem ctnr_no_rejection_and_recruit (g2g : List Particle → ℕ → ℕ → ℚ)
    (uni : ℕ → ℚ) (pcom ptrial : List Particle) (i : ℕ) :
    (∀ (k k' : ℕ) (b : Bool), uni k < 1 →
      MetStep uni k ctnrEnergyChange (b, k') → b = true) ∧
    (∀ (k : ℕ) (j : ℕ) (rest : List ℕ) (out : List ℕ × List ℕ × ℕ),
      CtnrSweep g2g uni pcom ptrial i k (j :: rest) out → ¬ j ∈ rest →
      (j ∈ out.1 ↔ (uni k : ℝ) < 1 - Real.exp (-((g2g ptrial i j - g2g pcom i j : ℚ) : ℝ)))) ∧
    (∀ (k : ℕ) (rem : List ℕ) (out : List ℕ × List ℕ × ℕ),
      (∀ n, 0 ≤ uni n) →
      (∀ j ∈ rem, g2g ptrial i j - g2g pcom i j ≤ 0) →
      CtnrSweep g2g uni pcom ptrial i k rem out → out.1 = []) := by
  refine ⟨?_, ?_, ?_⟩
  · intro k k' b hu hstep
    cases hstep with
    | accept h => rfl
    | reject h =>
        exfalso
        have hgt : (uni k : ℝ) > Real.exp (-(0 : ℝ)) := h
        rw [neg_zero, Real.exp_zero] at hgt
        have : ((uni k : ℚ) : ℝ) < 1 := by exact_mod_cast hu
        linarith
  · intro k j rest out hsweep hnotin
    cases hsweep with
    | recruit k j rest m r k' hc hrest =>
        simp only [List.mem_cons, true_or, true_iff]
        exact hc
    | keep k j rest m r k' hc hrest =>
        constructor
        · intro hmem
          exact absurd (ctnrSweep_subset g2g uni pcom ptrial i _ _ _ hrest j hmem) hnotin
        · intro hc'
          exact absurd hc' hc
  · intro k rem out hpos hdu hsweep
    induction hsweep with
    | nil k => rfl
    | recruit k j rest m r k' hc hrest ih =>
        exfalso
        have h1 : g2g ptrial i j - g2g pcom i j ≤ 0 := hdu j (List.mem_cons_self j rest)
        have h2 : (1 : ℝ) ≤ Real.exp (-((g2g ptrial i j - g2g pcom i j : ℚ) : ℝ)) := by
          apply Real.one_le_exp
          have : ((g2g ptrial i j - g2g pcom i j : ℚ) : ℝ) ≤ 0 := by exact_mod_cast h1
          linarith
        have h3 : (0 : ℝ) ≤ (uni k : ℝ) := by exact_mod_cast hpos k
        linarith
    | keep k j rest m r k' hc hrest ih =>
        exact ih (fun j' hj' => hdu j' (List.mem_cons_of_mem j hj'))

/-- Witness for C7: the draw 1/2 accepts the zero energy change, the head
group with a positive coupling is recruited, and with zero couplings a
sweep recruits nothing. -/
theorem ctnr_no_rejection_and_recruit_witness :
    (∃ b, MetStep halfStream 0 ctnrEnergyChange (b, 1) ∧ b = true) ∧
    (∃ out, CtnrSweep (fun _ _ _ => 0) halfStream [] [] 0 0 [1] out ∧ out.1 = []) := by
  have h := ctnr_no_rejection_and_recruit (fun _ _ _ => 0) halfStream [] [] 0
  have hk : ∀ n, ¬ (halfStream n : ℝ) < 1 - Real.exp (-(((0 : ℚ) - 0 : ℚ) : ℝ)) := by
    intro n
    rw [halfStream_eval]
    push_cast
    norm_num
  have hsweep : CtnrSweep (fun _ _ _ => 0) halfStream [] [] 0 0 [1] ([], [1], 1) :=
    CtnrSweep.keep 0 1 [] [] [] 1 (hk 0) (CtnrSweep.nil 1)
  have hmet : MetStep halfStream 0 ctnrEnergyChange (true, 1) := by
    apply MetStep.accept
    rw [ctnrEnergyChange, MetExceeds, halfStream_eval, neg_zero, Real.exp_zero]
    push_cast
    norm_num
  refine ⟨⟨true, hmet, h.1 0 1 true (by rw [halfStream_eval]; norm_num) hmet⟩,
    ⟨([], [1], 1), hsweep, ?_⟩⟩
  exact h.2.2 0 [1] ([], [1], 1) (fun n => by rw [halfStream_eval]; norm_num)
    (fun j _ => by norm_num) hsweep

/-- Move-specific members of `GrandCanonicalSalt`: the pending insertion
particles, the pending deletion indices, the current cation/anion ids and
a view of the Space particle tracker `atomTrack` (indices of the particles
of each atom type). -/
structure GCInner where
  trialInsert : List Particle
  trialDelete : List ℕ
  ida : ℕ
  idb : ℕ
  atomTrack : ℕ → List ℕ

/-- The deletion sampling loop: repeatedly pick a random element of the
index vector with the global selection stream and remove it, `n` times
(`slump.element` followed by `erase`); returns the picked indices and the
advanced cursor. -/
def pickDistinct (sel : ℕ → ℕ) : ℕ → ℕ → List ℕ → List ℕ × ℕ
  | k, 0, _ => ([], k)
  | k, n + 1, vec =>
      let idx := sel k % vec.length
      let i := vec.getD idx 0
      let rest := pickDistinct sel (k + 1) n (vec.eraseIdx idx)
      (i :: rest.1, rest.2)

/-- `GrandCanonicalSalt::_trialMove` for a given cation/anion pair
(`randomIonPair` repeats global draws until the charge signs fit; the pair
it settled on enters as the `ida`/`idb` arguments).  The stoichiometric
counts are `Na = |charge(b)|`, `Nb = |charge(a)|` (doubles truncated to
integers); one ranged draw chooses insertion (0) or deletion (1).
Insertion builds `Na + Nb` template particles at random positions
(`randompos`, the external geometry sampler, here indexed by the uniform
cursor).  Deletion aborts leaving both lists empty when the tracker holds
too few particles of either type, otherwise it samples the indices.
`templateP` and `ionCharge` stand for `map[id].p` and its charge. -/
def gcTrialMove (templateP : ℕ → Particle) (ionCharge : ℕ → ℚ)
    (randompos : ℕ → Pt3) (ida idb : ℕ) (R : Rngs)
    (s : MState GCInner) : MState GCInner :=
  let Na : ℕ := (Int.floor |ionCharge idb|).toNat
  let Nb : ℕ := (Int.floor |ionCharge ida|).toNat
  if R.gSel s.gS % 2 = 0 then
    let parts := (List.range Na).map
        (fun n => { templateP ida with pos := randompos (s.gU + 3 * n) }) ++
      (List.range Nb).map
        (fun n => { templateP idb with pos := randompos (s.gU + 3 * Na + 3 * n) })
    { s with
      inner := { s.inner with trialInsert := parts, trialDelete := ([] : List ℕ), ida := ida, idb := idb }
      gS := s.gS + 1
      gU := s.gU + 3 * (Na + Nb) }
  else
    if (s.inner.atomTrack ida).length < Na ∨ (s.inner.atomTrack idb).length < Nb then
      { s with
        inner := { s.inner with trialInsert := ([] : List Particle), trialDelete := ([] : List ℕ), ida := ida, idb := idb }
        gS := s.gS + 1 }
    else
      let pa := pickDistinct R.gSel (s.gS + 1) Na (s.inner.atomTrack ida)
      let pb := pickDistinct R.gSel pa.2 Nb (s.inner.atomTrack idb)
      { s with
        inner := { s.inner with trialInsert := ([] : List Particle), trialDelete := pa.1 ++ pb.1, ida := ida, idb := idb }
        gS := pb.2 }

/-- Product `(N + 1 + n)/V` over `n = 0..cnt-1` (insertion id-factor loop;
the deletion loop uses `N - cnt` as the base). -/
def gcIdFactor (base : ℚ) (cnt : ℕ) (V : ℚ) : ℚ :=
  (List.range cnt).foldl (fun a n => a * ((base + 1 + n) / V)) 1

/-- Sum of `p2p` over unordered pairs of a particle list (the insertion
pair-energy double loop). -/
def listPairSum (p2p : Particle → Particle → ℚ) : List Particle → ℚ
  | [] => 0
  | x :: rest => rest.foldl (fun a y => a + p2p x y) 0 + listPairSum p2p rest

/-- Sum of `i2i` over unordered pairs of an index list (the deletion
pair-energy double loop). -/
def idxPairSum (i2i : ℕ → ℕ → ℚ) : List ℕ → ℚ
  | [] => 0
  | x :: rest => rest.foldl (fun a y => a + i2i x y) 0 + idxPairSum i2i rest

/-- `GrandCanonicalSalt::_energyChange`: the insertion branch books the
ideal-gas factor and the chemical potentials plus the interaction energy of
the inserted particles, the deletion branch their negatives, and when both
lists are empty (the aborted deletion) the energy change and the alternate
return energy are both zero.  `v2v`, `p2p`, `pext`, `itotal` and `i2i` are
the external Hamiltonian operations, `mu` the stored chemical potentials,
`V` the geometry volume. -/
inductive GCEnergy (templateP : ℕ → Particle) (mu : ℕ → ℝ)
    (v2v : List Particle → List Particle → ℚ) (p2p : Particle → Particle → ℚ)
    (pext : Particle → ℚ) (itotal : List Particle → ℕ → ℚ)
    (i2i : List Particle → ℕ → ℕ → ℚ) (V : ℚ) (R : Rngs) :
    MState GCInner → EnergyR × MState GCInner → Prop
  | insertCase (s : MState GCInner) (hi : s.inner.trialInsert ≠ []) (e : ℝ)
      (he : e = Real.log
          ((gcIdFactor ((s.inner.atomTrack s.inner.ida).length : ℚ)
              ((s.inner.trialInsert.filter
                (fun t => t.id = (templateP s.inner.ida).id)).length) V
            * gcIdFactor ((s.inner.atomTrack s.inner.idb).length : ℚ)
              (s.inner.trialInsert.length - (s.inner.trialInsert.filter
                (fun t => t.id = (templateP s.inner.ida).id)).length) V : ℚ))
        - ((s.inner.trialInsert.filter
            (fun t => t.id = (templateP s.inner.ida).id)).length : ℝ) * mu s.inner.ida
        - ((s.inner.trialInsert.length - (s.inner.trialInsert.filter
            (fun t => t.id = (templateP s.inner.ida).id)).length : ℕ) : ℝ) * mu s.inner.idb
        + ((v2v s.p s.inner.trialInsert
            + listPairSum p2p s.inner.trialInsert
            + sumIext (fun _ i => pext (pAt s.inner.trialInsert i)) s.inner.trialInsert
              (List.range s.inner.trialInsert.length) : ℚ) : ℝ)) :
      GCEnergy templateP mu v2v p2p pext itotal i2i V R s
        (.finite e, { s with alternate :=
          ((v2v s.p s.inner.trialInsert
            + listPairSum p2p s.inner.trialInsert
            + sumIext (fun _ i => pext (pAt s.inner.trialInsert i)) s.inner.trialInsert
              (List.range s.inner.trialInsert.length) : ℚ) : ℝ) })
  | deleteCase (s : MState GCInner) (hi : s.inner.trialInsert = [])
      (hd : s.inner.trialDelete ≠ []) (e : ℝ)
      (he : e = - Real.log
          ((gcIdFactor ((s.inner.atomTrack s.inner.ida).length
              - (s.inner.trialDelete.filter
                (fun i => (pAt s.p i).id = (templateP s.inner.ida).id)).length : ℚ)
              ((s.inner.trialDelete.filter
                (fun i => (pAt s.p i).id = (templateP s.inner.ida).id)).length) V
            * gcIdFactor ((s.inner.atomTrack s.inner.idb).length
              - (s.inner.trialDelete.filter
                (fun i => (pAt s.p i).id = (templateP s.inner.idb).id)).length : ℚ)
              ((s.inner.trialDelete.filter
                (fun i => (pAt s.p i).id = (templateP s.inner.idb).id)).length) V : ℚ))
        + ((s.inner.trialDelete.filter
            (fun i => (pAt s.p i).id = (templateP s.inner.ida).id)).length : ℝ) * mu s.inner.ida
        + ((s.inner.trialDelete.filter
            (fun i => (pAt s.p i).id = (templateP s.inner.idb).id)).length : ℝ) * mu s.inner.idb
        - ((sumIext (fun cfg i => itotal cfg i) s.p s.inner.trialDelete
            - idxPairSum (fun i j => i2i s.p i j) s.inner.trialDelete : ℚ) : ℝ)) :
      GCEnergy templateP mu v2v p2p pext itotal i2i V R s
        (.finite e, { s with alternate :=
          - ((sumIext (fun cfg i => itotal cfg i) s.p s.inner.trialDelete
            - idxPairSum (fun i j => i2i s.p i j) s.inner.trialDelete : ℚ) : ℝ) })
  | emptyCase (s : MState GCInner) (hi : s.inner.trialInsert = [])
      (hd : s.inner.trialDelete = []) :
      GCEnergy templateP mu v2v p2p pext itotal i2i V R s
        (.finite 0, { s with alternate := 0 })

/-- `GrandCanonicalSalt::_acceptMove`: insert the pending particles into
the salt group, or erase the pending indices in descending order.  The
Space container is not part of the sources; its `insert` and `erase`
enter as the collaborators `insertFn` and `eraseFn`, applied to the
committed and the trial vector alike. -/
def gcAccept (insertFn : List Particle → List Particle → List Particle)
    (eraseFn : List Particle → ℕ → List Particle)
    (s : MState GCInner) : MState GCInner :=
  let s1 := if s.inner.trialInsert ≠ [] then
      { s with p := insertFn s.p s.inner.trialInsert
               trial := insertFn s.trial s.inner.trialInsert }
    else s
  if s.inner.trialDelete ≠ [] then
    let sorted := (s.inner.trialDelete.mergeSort (fun a b => b ≤ a))
    { s1 with p := sorted.foldl eraseFn s1.p, trial := sorted.foldl eraseFn s1.trial }
  else s1

/-- The `GrandCanonicalSalt` move plugged into the driver
(`_rejectMove` only updates density averages and leaves the state alone;
`useAlternativeReturnEnergy` is set at construction). -/
def gcOps (templateP : ℕ → Particle) (ionCharge : ℕ → ℚ) (mu : ℕ → ℝ)
    (randompos : ℕ → Pt3) (ida idb : ℕ)
    (v2v : List Particle → List Particle → ℚ) (p2p : Particle → Particle → ℚ)
    (pext : Particle → ℚ) (itotal : List Particle → ℕ → ℚ)
    (i2i : List Particle → ℕ → ℕ → ℚ) (V : ℚ)
    (insertFn : List Particle → List Particle → List Particle)
    (eraseFn : List Particle → ℕ → List Particle) : MoveOps GCInner where
  runOk := fun _ => true
  trialMove := fun R s s' => s' = gcTrialMove templateP ionCharge randompos ida idb R s
  energy := fun R s out => GCEnergy templateP mu v2v p2p pext itotal i2i V R s out
  acceptMove := gcAccept insertFn eraseFn
  rejectMove := fun s => s

theorem gcTrialMove_insufficient (templateP : ℕ → Particle) (ionCharge : ℕ → ℚ)
    (randompos : ℕ → Pt3) (ida idb : ℕ) (R : Rngs) (s : MState GCInner)
    (hcoin : ¬ R.gSel s.gS % 2 = 0)
    (hins : (s.inner.atomTrack ida).length < (Int.floor |ionCharge idb|).toNat ∨
      (s.inner.atomTrack idb).length < (Int.floor |ionCharge ida|).toNat) :
    gcTrialMove templateP ionCharge randompos ida idb R s =
      { s with
        inner := { s.inner with trialInsert := ([] : List Particle), trialDelete := ([] : List ℕ), ida := ida, idb := idb }
        gS := s.gS + 1 } := by
  unfold gcTrialMove
  rw [if_neg hcoin, if_pos hins]

theorem gcAccept_empty (insertFn : List Particle → List Particle → List Particle)
    (eraseFn : List Particle → ℕ → List Particle) (s : MState GCInner)
    (hi : s.inner.trialInsert = []) (hd : s.inner.trialDelete = []) :
    gcAccept insertFn eraseFn s = s := by
  unfold gcAccept
  rw [if_neg (by rw [hd]; exact fun h => h rfl), if_neg (by rw [hi]; exact fun h => h rfl)]

/-- C6.  A grand-canonical salt deletion trial that finds insufficient
inventory of the chosen cation or anion type is a silent no-op: the
attempt counter advances, the trial is accepted rather than rejected, the
reported energy change and the alternate return energy are zero, and both
particle vectors are untouched. -/
theorem gc_insufficient_inventory (templateP : ℕ → Particle)
    (ionCharge : ℕ → ℚ) (mu : ℕ → ℝ) (randompos : ℕ → Pt3) (ida idb : ℕ)
    (v2v : List Particle → List Particle → ℚ) (p2p : Particle → Particle → ℚ)
    (pext : Particle → ℚ) (itotal : List Particle → ℕ → ℚ)
    (i2i : List Particle → ℕ → ℕ → ℚ) (V : ℚ)
    (insertFn : List Particle → List Particle → List Particle)
    (eraseFn : List Particle → ℕ → List Particle)
    (R : Rngs) (potUpdate : Bool → ℝ) (s : MState GCInner) (utot : ℝ)
    (su' : MState GCInner × ℝ)
    (h : TrialStep (gcOps templateP ionCharge mu randompos ida idb v2v p2p
      pext itotal i2i V insertFn eraseFn) R potUpdate (s, utot) su')
    (hcoin : ¬ R.gSel s.gS % 2 = 0)
    (hins : (s.inner.atomTrack ida).length < (Int.floor |ionCharge idb|).toNat ∨
      (s.inner.atomTrack idb).length < (Int.floor |ionCharge ida|).toNat)
    (hu : UniRange R.gUni) (hpu : potUpdate true = 0) :
    su'.1.p = s.p ∧ su'.1.trial = s.trial ∧
    su'.1.cnt = s.cnt + 1 ∧ su'.1.cntAccepted = s.cntAccepted + 1 ∧
    su'.1.alternate = 0 ∧ su'.2 = utot := by
  have htr := gcTrialMove_insufficient templateP ionCharge randompos ida idb R
    { s with cnt := s.cnt + 1 } hcoin hins
  cases h with
  | accept s0 utot0 s1 x s2 hclear htrial henergy hmet =>
      have hs1 : s1 = { s with
          cnt := s.cnt + 1
          inner := { s.inner with trialInsert := ([] : List Particle), trialDelete := ([] : List ℕ), ida := ida, idb := idb }
          gS := s.gS + 1 } := by
        rw [htrial, htr]
      subst hs1
      cases henergy with
      | insertCase hi e he => exact absurd rfl hi
      | deleteCase hi hd e he => exact absurd rfl hd
      | emptyCase hi hd =>
          refine ⟨rfl, rfl, rfl, rfl, rfl, ?_⟩
          simp [hpu]
  | reject s0 utot0 s1 e s2 hclear htrial henergy hmet =>
      exfalso
      have hs1 : s1 = { s with
          cnt := s.cnt + 1
          inner := { s.inner with trialInsert := ([] : List Particle), trialDelete := ([] : List ℕ), ida := ida, idb := idb }
          gS := s.gS + 1 } := by
        rw [htrial, htr]
      subst hs1
      cases henergy with
      | insertCase hi e he => exact absurd rfl hi
      | deleteCase hi hd e he => exact absurd rfl hd
      | emptyCase hi hd =>
          have key : ∀ n, ¬ MetExceeds (R.gUni n) (.finite 0) := by
            intro n
            show ¬ ((R.gUni n : ℝ) > Real.exp (-(0 : ℝ)))
            rw [neg_zero, Real.exp_zero]
            have : ((R.gUni n : ℚ) : ℝ) < 1 := by exact_mod_cast (hu n).2
            linarith
          cases hmet with
          | reject hex => exact key _ hex

theorem halfStream_range : UniRange halfStream := by
  intro n
  rw [halfStream_eval]
  norm_num

/-- Concrete grand-canonical demo state: empty tracker, one committed and
one trial particle, alternate-energy reporting enabled. -/
def gcDemoState : MState GCInner where
  inner := ⟨[], [], 0, 0, fun _ => []⟩
  p := [defaultParticle]
  trial := [defaultParticle]
  groups := []
  mollist := []
  currentMolId := 0
  runfraction := 1
  change := Change.cleared
  cnt := 0
  cntAccepted := 0
  dusum := 0
  useAlternative := true
  alternate := 0
  gU := 0
  gS := 0
  dU := 0
  dS := 0

/-- Stream pack whose ranged selection always lands on the deletion
branch. -/
def gcDemoRngs : Rngs := ⟨halfStream, fun _ => 1, halfStream, fun _ => 1⟩

/-- Witness for C6: a deletion trial on an empty tracker is a silent
no-op that is counted as an accepted attempt. -/
theorem gc_insufficient_inventory_witness :
    ∃ su', TrialStep (gcOps (fun _ => defaultParticle) (fun _ => 1) (fun _ => 0)
        (fun _ => ⟨0, 0, 0⟩) 1 2 (fun _ _ => 0) (fun _ _ => 0) (fun _ => 0)
        (fun _ _ => 0) (fun _ _ _ => 0) 1 (fun p _ => p) (fun p _ => p))
      gcDemoRngs (fun _ => 0) (gcDemoState, 0) su' ∧
      su'.1.p = gcDemoState.p ∧ su'.1.trial = gcDemoState.trial ∧
      su'.1.cnt = gcDemoState.cnt + 1 ∧
      su'.1.cntAccepted = gcDemoState.cntAccepted + 1 ∧
      su'.1.alternate = 0 ∧ su'.2 = 0 := by
  have hcoin : ¬ gcDemoRngs.gSel gcDemoState.gS % 2 = 0 := by decide
  have hins : ((gcDemoState.inner.atomTrack 1).length <
      (Int.floor |((fun _ => (1 : ℚ)) 2 : ℚ)|).toNat ∨
    (gcDemoState.inner.atomTrack 2).length <
      (Int.floor |((fun _ => (1 : ℚ)) 1 : ℚ)|).toNat) := by
    left
    show (0 : ℕ) < (Int.floor |(1 : ℚ)|).toNat
    norm_num
  have htr := gcTrialMove_insufficient (fun _ => defaultParticle) (fun _ => 1)
    (fun _ => ⟨0, 0, 0⟩) 1 2 gcDemoRngs { gcDemoState with cnt := gcDemoState.cnt + 1 }
    hcoin hins
  have hmet : MetStep gcDemoRngs.gUni 0 (.finite 0) (true, 1) := by
    apply MetStep.accept
    show ¬ ((halfStream 0 : ℝ) > Real.exp (-(0 : ℝ)))
    rw [neg_zero, Real.exp_zero, halfStream_eval]
    push_cast
    norm_num
  have hstep : TrialStep (gcOps (fun _ => defaultParticle) (fun _ => 1) (fun _ => 0)
      (fun _ => ⟨0, 0, 0⟩) 1 2 (fun _ _ => 0) (fun _ _ => 0) (fun _ => 0)
      (fun _ _ => 0) (fun _ _ _ => 0) 1 (fun p _ => p) (fun p _ => p))
      gcDemoRngs (fun _ => 0) (gcDemoState, 0) _ :=
    TrialStep.accept gcDemoState 0
      ({ gcDemoState with
          cnt := gcDemoState.cnt + 1
          inner := { gcDemoState.inner with trialInsert := ([] : List Particle), trialDelete := ([] : List ℕ), ida := 1, idb := 2 }
          gS := gcDemoState.gS + 1 }) 0 _ rfl htr.symm
      (GCEnergy.emptyCase _ rfl rfl) hmet
  have hconc := gc_insufficient_inventory (fun _ => defaultParticle) (fun _ => 1)
    (fun _ => 0) (fun _ => ⟨0, 0, 0⟩) 1 2 (fun _ _ => 0) (fun _ _ => 0) (fun _ => 0)
    (fun _ _ => 0) (fun _ _ _ => 0) 1 (fun p _ => p) (fun p _ => p)
    gcDemoRngs (fun _ => 0) gcDemoState 0 _ hstep hcoin hins halfStream_range rfl
  exact ⟨_, hstep, hconc⟩

/-- The repeat bookkeeping of `PolarizeMove::_trialMove`, run after the
wrapped move's proposal: `Ntrials` is incremented; with a molecule list
`updateAt` becomes the current entry's repeat count, otherwise `Ntrials`
is reset to 1 (and `updateAt` stays 1); `updateDip = (Ntrials == updateAt)`.
Returns the new `Ntrials` and `updateDip`. -/
def polarizeCounters (mollist : List (ℕ × MolData)) (currentMolId : ℕ)
    (ntrials : ℕ) : ℕ × Bool :=
  if mollist.isEmpty then (1, decide (1 = 1))
  else (ntrials + 1,
    decide (ntrials + 1 = (lookupMol mollist currentMolId).repeatCount))

/-- `PolarizeMove::_energyChange`: the full-system energy difference when
the dipoles were updated on this trial, the wrapped move's incremental
energy otherwise.  `sysTrial` and `sysCom` stand for
`Energy::systemEnergy` on the trial and the committed configuration,
`baseDu` for `Tmove::_energyChange()`. -/
def polarizeEnergyChange (updateDip : Bool) (sysTrial sysCom baseDu : ℝ) : ℝ :=
  if updateDip then sysTrial - sysCom else baseDu

/-- Counterexample to C9 as stated: a wrapped move with a molecule-list
entry of repeat count 2 does NOT return the full-system energy difference
on its first inner trial — `updateDip` is false there and the wrapped
move's incremental energy (5) is returned instead of the full-system
difference (1). -/
theorem polarize_energy_counterexample :
    (polarizeCounters [(7, ⟨1, false, false, 2, ⟨1, 1, 1⟩, 0, 0⟩)] 7 0).2 = false ∧
    polarizeEnergyChange
      (polarizeCounters [(7, ⟨1, false, false, 2, ⟨1, 1, 1⟩, 0, 0⟩)] 7 0).2 1 0 5 = 5 ∧
    (5 : ℝ) ≠ 1 - 0 := by
  refine ⟨by decide, ?_, by norm_num⟩
  rw [show (polarizeCounters [(7, ⟨1, false, false, 2, ⟨1, 1, 1⟩, 0, 0⟩)] 7 0).2 = false
    from by decide]
  rfl

/-- C9, amended.  The polarisation decorator's `energy_change()` returns
the full-system energy of the trial configuration minus that of the
committed configuration exactly when the dipole update fired on this
trial; that is always the case for a move without a molecule list, and
for a repeating move exactly on the inner trial whose index equals the
entry's repeat count.  On the other inner trials it returns the wrapped
move's incremental energy. -/
theorem polarize_energy_change (mollist : List (ℕ × MolData))
    (currentMolId ntrials : ℕ) (sysTrial sysCom baseDu : ℝ) :
    ((polarizeCounters mollist currentMolId ntrials).2 = true →
      polarizeEnergyChange (polarizeCounters mollist currentMolId ntrials).2
        sysTrial sysCom baseDu = sysTrial - sysCom) ∧
    ((polarizeCounters mollist currentMolId ntrials).2 = false →
      polarizeEnergyChange (polarizeCounters mollist currentMolId ntrials).2
        sysTrial sysCom baseDu = baseDu) ∧
    (mollist = [] → (polarizeCounters mollist currentMolId ntrials).2 = true) ∧
    (mollist ≠ [] → ((polarizeCounters mollist currentMolId ntrials).2 = true ↔
      ntrials + 1 = (lookupMol mollist currentMolId).repeatCount)) := by
  refine ⟨fun h => ?_, fun h => ?_, fun h => ?_, fun h => ?_⟩
  · rw [polarizeEnergyChange, if_pos h]
  · rw [polarizeEnergyChange, h]
    rfl
  · subst h
    rfl
  · have hie : mollist.isEmpty = false := by
      cases mollist with
      | nil => exact absurd rfl h
      | cons a t => rfl
    rw [polarizeCounters, hie]
    simp

/-- Witness for the amended C9: without a molecule list the dipole update
always fires and the full-system difference (3 - 1 = 2) is returned. -/
theorem polarize_energy_change_witness :
    (polarizeCounters [] 0 0).2 = true ∧
    polarizeEnergyChange (polarizeCounters [] 0 0).2 3 1 5 = 3 - 1 := by
  have h := polarize_energy_change [] 0 0 3 1 5
  have ht := h.2.2.1 rfl
  exact ⟨ht, h.1 ht⟩

end Faunus
